import Mathlib

/-!
Verification development for the Rangy TextRange module
(src/src/js/modules/rangy-textrange-old.js) and the selection save/restore
module (src/src/js/modules/selectionsaverestore.js).

The host tree (DOM), the style oracle and the rangy core range primitives are
external collaborators; they are embedded as a finite tree of nodes carrying
their computed style, with positions addressed by child-index paths.  All
functions below are direct translations of the source; line references are to
rangy-textrange-old.js unless noted.
-/

set_option maxRecDepth 20000

namespace Rangy

/-- Computed style of an element, as reported by the external style oracle
(`getComputedStyleProperty`). -/
structure ElemStyle where
  display : String
  whiteSpace : String
  visibility : String
deriving Repr, DecidableEq

/-- A node of the host tree: element, text, comment or processing
instruction.  Elements carry their computed style so that the style oracle is
a pure lookup. -/
inductive DomNode where
  | element (tag : String) (style : ElemStyle) (children : List DomNode)
  | text (data : String)
  | comment (data : String)
  | pi (data : String)
deriving Repr

/-- Children of a node (empty for non-elements). -/
def DomNode.childrenOf : DomNode → List DomNode
  | .element _ _ cs => cs
  | _ => []

def DomNode.isElement : DomNode → Bool
  | .element _ _ _ => true
  | _ => false

def DomNode.isTextNode : DomNode → Bool
  | .text _ => true
  | _ => false

/-- `node.data` (undefined for elements). -/
def DomNode.dataOf : DomNode → Option String
  | .text s => some s
  | .comment s => some s
  | .pi s => some s
  | .element _ _ _ => none

/-- Lower-cased tag name of an element. -/
def DomNode.tagOf : DomNode → Option String
  | .element t _ _ => some t
  | _ => none

def DomNode.styleOf : DomNode → Option ElemStyle
  | .element _ st _ => some st
  | _ => none

-- Total number of nodes in the tree rooted here.
mutual

def domSize : DomNode → Nat
  | .element _ _ cs => 1 + domSizeList cs
  | _ => 1

def domSizeList : List DomNode → Nat
  | [] => 0
  | c :: cs => domSize c + domSizeList cs

end

-- Total number of tree positions (`Σ nodeLength + 1` over all nodes); an
-- upper bound for walks over positions.
mutual

def posCount : DomNode → Nat
  | .element _ _ cs => cs.length + 1 + posCountList cs
  | n => (match n with
      | .text s => s.length
      | .comment s => s.length
      | .pi s => s.length
      | .element _ _ cs => cs.length) + 1

def posCountList : List DomNode → Nat
  | [] => 0
  | c :: cs => posCount c + posCountList cs

end

/-- A node handle: the path of child indices from the root. -/
abbrev NodePath := List Nat

/-- Node lookup along a path. -/
def nodeAtPath : NodePath → DomNode → Option DomNode
  | [], n => some n
  | i :: rest, n =>
    match n.childrenOf.get? i with
    | some c => nodeAtPath rest c
    | none => none

def nodeAt (d : DomNode) (p : NodePath) : Option DomNode := nodeAtPath p d

/-- `dom.getNodeIndex(node)`: index of the node among its parent's children. -/
def lastIdxOf (p : NodePath) : Nat := p.getLast?.getD 0

/-- A `DomPosition`: node plus offset. -/
structure Pos where
  path : NodePath
  offset : Nat
deriving Repr, DecidableEq

/-- rangy core `isCharacterDataNode` (nodeType 3, 4 or 8). -/
def isCharacterDataNode : DomNode → Bool
  | .text _ => true
  | .comment _ => true
  | _ => false

/-- rangy core `getNodeLength`: data length for character-data nodes,
child count otherwise. -/
def getNodeLength (n : DomNode) : Nat :=
  match n with
  | .text s => s.length
  | .comment s => s.length
  | .pi _ => 0
  | .element _ _ cs => cs.length

/-- Tags matched by the void-element regex in `containsPositions`
(lines 141-144). -/
def voidTags : List String :=
  ["area", "base", "basefont", "br", "col", "frame", "hr", "img", "input",
   "isindex", "link", "meta", "param"]

/-- `containsPositions` (lines 141-144). -/
def containsPositions (n : DomNode) : Bool :=
  isCharacterDataNode n ||
    (match n with
     | .element t _ _ => !(voidTags.contains t)
     | .pi _ => true
     | _ => false)

/-- Result of the browser feature test for IE's table display quirk
(lines 342-349); false in any modern engine, and the claims do not
depend on it. -/
def tableCssDisplayBlock : Bool := false

/-- Feature flag (line 88): hard-coded true in the source (the feature
detection block is commented out). -/
def trailingSpaceInBlockCollapses : Bool := true

/-- Feature flag (line 89): hard-coded true in the source. -/
def trailingSpaceBeforeBrCollapses : Bool := true

/-- `defaultDisplayValueForTag` (lines 353-364). -/
def defaultDisplayValueForTag (t : String) : Option String :=
  if t = "table" then some "table"
  else if t = "caption" then some "table-caption"
  else if t = "colgroup" then some "table-column-group"
  else if t = "col" then some "table-column"
  else if t = "thead" then some "table-header-group"
  else if t = "tbody" then some "table-row-group"
  else if t = "tfoot" then some "table-footer-group"
  else if t = "tr" then some "table-row"
  else if t = "td" then some "table-cell"
  else if t = "th" then some "table-cell"
  else none

/-- `getComputedDisplay` (lines 367-374); only meaningful for elements. -/
def getComputedDisplay (n : DomNode) : String :=
  match n with
  | .element t st _ =>
    match defaultDisplayValueForTag t with
    | some corrected =>
      if st.display = "block" && tableCssDisplayBlock then corrected else st.display
    | none => st.display
  | _ => ""

/-- `isBlockNode` (lines 130-134) applied to a resolved node.  The document
and fragment node kinds of the source are not modelled (the root of the
embedded tree is an ordinary element). -/
def isBlockNode (n : DomNode) : Bool :=
  n.isElement &&
    !(getComputedDisplay n = "inline" || getComputedDisplay n = "inline-block" ||
      getComputedDisplay n = "inline-table" || getComputedDisplay n = "none")

def isBlockNodeAt (d : DomNode) (p : NodePath) : Bool :=
  match nodeAt d p with
  | some n => isBlockNode n
  | none => false

/-- `isHtmlElement(node, tag)` for a single tag name (lines 165-177);
tags in the model are already lower case. -/
def isTagAt (d : DomNode) (p : NodePath) (tag : String) : Bool :=
  match nodeAt d p with
  | some (.element t _ _) => t = tag
  | _ => false

/-- All ancestor paths of `p` including `p` itself (`getAncestorsAndSelf`). -/
def ancestorsAndSelf (p : NodePath) : List NodePath :=
  (List.range (p.length + 1)).map (fun k => p.take k)

/-- `isHidden` (lines 212-221): some ancestor-or-self element has computed
display none. -/
def isHidden (d : DomNode) (p : NodePath) : Bool :=
  (ancestorsAndSelf p).any fun q =>
    match nodeAt d q with
    | some n => n.isElement && getComputedDisplay n = "none"
    | none => false

/-- `isVisibilityHiddenTextNode` (lines 223-228). -/
def isVisibilityHiddenTextNode (d : DomNode) (p : NodePath) : Bool :=
  match nodeAt d p with
  | some (.text _) =>
    (match p with
     | [] => false
     | _ =>
       match nodeAt d p.dropLast with
       | some (.element _ st _) => st.visibility = "hidden"
       | _ => false)
  | _ => false

/-- Character class of `/^[\t\n\r ]+$/` (whitespace node test). -/
def isWsCharTNRS (c : Char) : Bool :=
  c = '\t' || c = '\n' || c = '\r' || c = ' '

/-- Character class of `/^[\t\r ]+$/` (pre-line whitespace node test). -/
def isWsCharTRS (c : Char) : Bool :=
  c = '\t' || c = '\r' || c = ' '

/-- `isWhitespaceNode` (lines 238-254). -/
def isWhitespaceNode (d : DomNode) (p : NodePath) : Bool :=
  match nodeAt d p with
  | some (.text s) =>
    if s = "" then true
    else
      match p with
      | [] => false
      | _ =>
        match nodeAt d p.dropLast with
        | some (.element _ st _) =>
          (s.data.all isWsCharTNRS && (st.whiteSpace = "normal" || st.whiteSpace = "nowrap"))
            || (s.data.all isWsCharTRS && st.whiteSpace = "pre-line")
        | _ => false
  | _ => false

/-- Path of the next sibling, when one exists. -/
def nextSiblingPath (d : DomNode) (p : NodePath) : Option NodePath :=
  match p with
  | [] => none
  | _ =>
    match nodeAt d p.dropLast with
    | some par =>
      if lastIdxOf p + 1 < par.childrenOf.length then some (p.dropLast ++ [lastIdxOf p + 1])
      else none
    | none => none

/-- Path of the previous sibling, when one exists. -/
def prevSiblingPath (p : NodePath) : Option NodePath :=
  match p with
  | [] => none
  | _ =>
    match lastIdxOf p with
    | 0 => none
    | k + 1 => some (p.dropLast ++ [k])

/-- `nextNodeDescendants` (lines 179-187): climb until a next sibling exists. -/
def nextNodeDescendants (d : DomNode) : NodePath → Option NodePath
  | [] => none
  | i :: rest =>
    match nextSiblingPath d (i :: rest) with
    | some q => some q
    | none => nextNodeDescendants d (i :: rest).dropLast
termination_by p => p.length
decreasing_by
  simp [List.length_dropLast]

/-- `nextNode` (lines 189-194). -/
def nextNodeTree (d : DomNode) (p : NodePath) (excludeChildren : Bool) : Option NodePath :=
  match nodeAt d p with
  | none => none
  | some n =>
    if !excludeChildren && n.childrenOf.length ≠ 0 then some (p ++ [0])
    else nextNodeDescendants d p

/-- Descend to the last descendant of the node at `p` (the inner while loop
of `previousNode`); fuel bounds the depth. -/
def lastDescendantFrom (d : DomNode) : Nat → NodePath → NodePath
  | 0, p => p
  | fuel + 1, p =>
    match nodeAt d p with
    | some n =>
      if n.childrenOf.length = 0 then p
      else lastDescendantFrom d fuel (p ++ [n.childrenOf.length - 1])
    | none => p

/-- `previousNode` (lines 196-210). -/
def previousNodeTree (d : DomNode) (p : NodePath) : Option NodePath :=
  match prevSiblingPath p with
  | some q => some (lastDescendantFrom d (domSize d) q)
  | none =>
    match p with
    | [] => none
    | _ =>
      match nodeAt d p.dropLast with
      | some n => if n.isElement then some p.dropLast else none
      | none => none

/-- The hard-stop test shared by both scans of `isCollapsedWhitespaceNode`
(lines 309 and 333): a non-whitespace text node, or an img element. -/
def icwnHardStop (d : DomNode) (p : NodePath) : Bool :=
  (match nodeAt d p with
   | some (.text _) => !isWhitespaceNode d p
   | _ => false) || isTagAt d p "img"

/-- Collapsed-decision test shared by both scans (lines 303 and 327): a block
node or a br element. -/
def icwnBlockOrBr (d : DomNode) (p : NodePath) : Bool :=
  isBlockNodeAt d p || isTagAt d p "br"

/-- Backward scan of `isCollapsedWhitespaceNode` (lines 292-312): walk
`previousNode` from the node until the block ancestor is reached; returns
true when a block node or br is hit first (the node is collapsed). -/
def icwnBack (d : DomNode) (ancestor : NodePath) : Nat → NodePath → Bool
  | 0, _ => false
  | fuel + 1, ref =>
    if ref = ancestor then false
    else
      match previousNodeTree d ref with
      | none => false
      | some r =>
        if icwnBlockOrBr d r then true
        else if icwnHardStop d r then false
        else icwnBack d ancestor fuel r

/-- Forward scan of `isCollapsedWhitespaceNode` (lines 314-336): walk
`nextNode` until `nextNodeDescendants(ancestor)`. -/
def icwnFwd (d : DomNode) (stop : Option NodePath) : Nat → NodePath → Bool
  | 0, _ => false
  | fuel + 1, ref =>
    if some ref = stop then false
    else
      match nextNodeTree d ref false with
      | none => false
      | some r =>
        if icwnBlockOrBr d r then true
        else if icwnHardStop d r then false
        else icwnFwd d stop fuel r

/-- The `while (!isBlockNode(ancestor) && ancestor.parentNode)` climb
(lines 288-290). -/
def climbToBlock (d : DomNode) : NodePath → NodePath
  | [] => []
  | i :: rest =>
    if isBlockNodeAt d (i :: rest) then i :: rest
    else climbToBlock d (i :: rest).dropLast
termination_by p => p.length
decreasing_by
  simp [List.length_dropLast]

/-- `isCollapsedWhitespaceNode` (lines 259-340). -/
def isCollapsedWhitespaceNode (d : DomNode) (p : NodePath) : Bool :=
  match nodeAt d p with
  | none => false
  | some n =>
    if n.dataOf = some "" then true
    else if !isWhitespaceNode d p then false
    else
      match p with
      | [] => true
      | _ =>
        if isHidden d p then true
        else
          let anc := climbToBlock d p.dropLast
          if icwnBack d anc (domSize d + 1) p then true
          else icwnFwd d (nextNodeDescendants d anc) (domSize d + 1) p

/-- `isCollapsedNode` (lines 376-385). -/
def isCollapsedNode (d : DomNode) (p : NodePath) : Bool :=
  match nodeAt d p with
  | none => false
  | some n =>
    (match n with
     | .pi _ => true
     | .comment _ => true
     | _ => false) ||
    isHidden d p ||
    (match n with
     | .element t _ _ => t = "script" || t = "style"
     | _ => false) ||
    isVisibilityHiddenTextNode d p ||
    isCollapsedWhitespaceNode d p

/-- `isIgnoredNode` (lines 387-392). -/
def isIgnoredNode (n : DomNode) : Bool :=
  match n with
  | .pi _ => true
  | .comment _ => true
  | .element _ _ _ => getComputedDisplay n = "none"
  | _ => false

/-- `hasInnerText` (lines 394-407); the path locates `n` in the tree so that
`isCollapsedNode` can inspect the node's context.  Fuel bounds the recursion
depth (`domSize` suffices). -/
def hasInnerText (d : DomNode) : Nat → NodePath → Bool
  | 0, _ => false
  | fuel + 1, p =>
    match nodeAt d p with
    | none => false
    | some n =>
      if isCollapsedNode d p then false
      else
        match n with
        | .text _ => true
        | _ =>
          (List.range n.childrenOf.length).any fun i =>
            hasInnerText d fuel (p ++ [i])

/-! ### Position graph (lines 485-576) -/

/-- `nextPosition` (lines 485-512). -/
def nextPosition (d : DomNode) (pos : Pos) : Option Pos :=
  match nodeAt d pos.path with
  | none => none
  | some n =>
    if pos.offset = getNodeLength n then
      if pos.path = [] then none
      else some ⟨pos.path.dropLast, lastIdxOf pos.path + 1⟩
    else if isCharacterDataNode n then some ⟨pos.path, pos.offset + 1⟩
    else
      match n.childrenOf.get? pos.offset with
      | some c =>
        if containsPositions c then some ⟨pos.path ++ [pos.offset], 0⟩
        else some ⟨pos.path, pos.offset + 1⟩
      | none => none

/-- `previousPosition` (lines 514-540). -/
def previousPosition (d : DomNode) (pos : Pos) : Option Pos :=
  match nodeAt d pos.path with
  | none => none
  | some n =>
    if pos.offset = 0 then
      if pos.path = [] then none
      else some ⟨pos.path.dropLast, lastIdxOf pos.path⟩
    else if isCharacterDataNode n then some ⟨pos.path, pos.offset - 1⟩
    else
      match n.childrenOf.get? (pos.offset - 1) with
      | some c =>
        if containsPositions c then some ⟨pos.path ++ [pos.offset - 1], getNodeLength c⟩
        else some ⟨pos.path, pos.offset - 1⟩
      | none => none

/-- `nextVisiblePosition` (lines 550-562): one raw step, then skip over the
landed-on node's whole subtree when that node is collapsed. -/
def nextVisiblePosition (d : DomNode) (pos : Pos) : Option Pos :=
  match nextPosition d pos with
  | none => none
  | some nxt =>
    if isCollapsedNode d nxt.path then
      if nxt.path = [] then none
      else some ⟨nxt.path.dropLast, lastIdxOf nxt.path + 1⟩
    else some nxt

/-- `previousVisiblePosition` (lines 564-576). -/
def previousVisiblePosition (d : DomNode) (pos : Pos) : Option Pos :=
  match previousPosition d pos with
  | none => none
  | some prev =>
    if isCollapsedNode d prev.path then
      if prev.path = [] then none
      else some ⟨prev.path.dropLast, lastIdxOf prev.path⟩
    else some prev

/-! ### Character materializer (lines 417-757) -/

/-- Options steering character materialization.  `collapseSpaceBeforeLineBreak`
is the one documented default (line 994).  The source also reads
`options.collapseSpaces` (line 630), but every call of
`getPossibleCharacterAt` in the file omits the `options` argument
(lines 694, 703, 714), so that branch can never be taken without throwing;
the embedding therefore treats it as false and carries no such field. -/
structure CharacterOptions where
  collapseSpaceBeforeLineBreak : Bool := true
deriving Repr, DecidableEq

def defaultCharacterOptions : CharacterOptions := {}

/-- `TextPosition` (lines 417-424).  A materialized character is at most one
code point in the source (`""`, `" "`, `"\t"` or `"\n"` for synthesized
characters, a single code point otherwise), so `character` is an
`Option Char` with `none` standing for the empty string. -/
structure TextPos where
  character : Option Char
  position : Pos
  isLeadingSpace : Bool := false
  isTrailingSpace : Bool := false
  isBr : Bool := false
  collapsible : Bool := false
deriving Repr, DecidableEq

/-- `TextPosition.prototype.collapsesPrecedingSpace` (lines 430-433). -/
def TextPos.collapsesPrecedingSpace (tp : TextPos) : Bool :=
  tp.character = some '\n' &&
    ((tp.isBr && trailingSpaceBeforeBrCollapses) ||
     (tp.isTrailingSpace && trailingSpaceInBlockCollapses))

/-- Character class of `spacesRegex` `/^[ \t\f\r\n]+$/` on one character. -/
def spacesRegexChar (c : Char) : Bool :=
  c = ' ' || c = '\t' || c = '\x0c' || c = '\r' || c = '\n'

/-- Character class of `spacesMinusLineBreaksRegex` `/^[ \t\f\r]+$/`. -/
def spacesMinusLineBreaksChar (c : Char) : Bool :=
  c = ' ' || c = '\t' || c = '\x0c' || c = '\r'

/-- Character class of `allWhiteSpaceRegex` (line 78). -/
def allWhiteSpaceChar (c : Char) : Bool :=
  (0x09 ≤ c.toNat && c.toNat ≤ 0x0d) || c = ' ' || c.toNat = 0x85 ||
  c.toNat = 0xa0 || c.toNat = 0x1680 || c.toNat = 0x180e ||
  (0x2000 ≤ c.toNat && c.toNat ≤ 0x200b) || c.toNat = 0x2028 ||
  c.toNat = 0x2029 || c.toNat = 0x202f || c.toNat = 0x205f || c.toNat = 0x3000

/-- Character class of `nonLineBreakWhiteSpaceRegex` (line 79). -/
def nonLineBreakWhiteSpaceChar (c : Char) : Bool :=
  c = '\t' || c = ' ' || c.toNat = 0xa0 || c.toNat = 0x1680 ||
  c.toNat = 0x180e || (0x2000 ≤ c.toNat && c.toNat ≤ 0x200b) ||
  c.toNat = 0x202f || c.toNat = 0x205f || c.toNat = 0x3000

/-- `getTextNodeProperties` (lines 584-604), reduced to the two flags actually
read (`spaceRegex` is determined by them). -/
structure TextNodeInfo where
  collapseSpaces : Bool
  preLine : Bool
deriving Repr, DecidableEq

def getTextNodeProperties (d : DomNode) (p : NodePath) : TextNodeInfo :=
  let cssWhitespace :=
    match p with
    | [] => ""
    | _ =>
      match nodeAt d p.dropLast with
      | some (.element _ st _) => st.whiteSpace
      | _ => ""
  if cssWhitespace = "pre-line" then ⟨true, true⟩
  else if cssWhitespace = "normal" || cssWhitespace = "nowrap" then ⟨true, false⟩
  else ⟨false, false⟩

/-- The `spaceRegex` selected by `getTextNodeProperties`. -/
def TextNodeInfo.spaceRegexTest (info : TextNodeInfo) (c : Char) : Bool :=
  if info.preLine then spacesMinusLineBreaksChar c else spacesRegexChar c

/-- The backward walk over children in the `inline` case of `getTrailingSpace`
(lines 441-447): index of the last non-ignored child, scanning from `k - 1`
down. -/
def lastNonIgnoredChildIdx (d : DomNode) (p : NodePath) : Nat → Option Nat
  | 0 => none
  | k + 1 =>
    match nodeAt d (p ++ [k]) with
    | some c => if isIgnoredNode c then lastNonIgnoredChildIdx d p k else some k
    | none => lastNonIgnoredChildIdx d p k

/-- `getTrailingSpace` (lines 435-462); fuel bounds the recursion into
children (`domSize` suffices). -/
def getTrailingSpace (d : DomNode) : Nat → NodePath → Option Char
  | 0, _ => none
  | fuel + 1, p =>
    match nodeAt d p with
    | some (.element t st cs) =>
      if t = "br" then none
      else
        let disp := getComputedDisplay (.element t st cs)
        if disp = "inline" then
          match lastNonIgnoredChildIdx d p cs.length with
          | some k =>
            match nodeAt d (p ++ [k]) with
            | some c =>
              if c.isElement then getTrailingSpace d fuel (p ++ [k]) else none
            | none => none
          | none => none
        else if disp = "inline-block" || disp = "inline-table" || disp = "none"
            || disp = "table-column" || disp = "table-column-group" then none
        else if disp = "table-cell" then some '\t'
        else if hasInnerText d (domSize d + 1) p then some '\n' else none
    | _ => none

/-- `getLeadingSpace` (lines 464-478). -/
def getLeadingSpace (d : DomNode) (p : NodePath) : Option Char :=
  match nodeAt d p with
  | some (.element t st cs) =>
    let disp := getComputedDisplay (.element t st cs)
    if disp = "inline" || disp = "inline-block" || disp = "inline-table" ||
       disp = "none" || disp = "table-column" || disp = "table-column-group" ||
       disp = "table-cell" then none
    else if hasInnerText d (domSize d + 1) p then some '\n' else none
  | _ => none

/-- `getPossibleCharacterAt` (lines 606-676).  All calls in the source omit
the `options` parameter, so the `options.collapseSpaces` conjunct of the
pre-line branch (line 630) is never satisfiable without throwing; the branch
is modelled as false. -/
def getPossibleCharacterAt (d : DomNode) (pos : Pos) : TextPos :=
  let blank : TextPos := ⟨none, pos, false, false, false, false⟩
  if pos.offset = 0 then blank
  else
    match nodeAt d pos.path with
    | some (.text s) =>
      let info := getTextNodeProperties d pos.path
      match s.data.get? (pos.offset - 1) with
      | some textChar =>
        if info.collapseSpaces then
          if info.spaceRegexTest textChar then
            if pos.offset > 1 &&
                (match s.data.get? (pos.offset - 2) with
                 | some c2 => info.spaceRegexTest c2
                 | none => false) then
              { blank with collapsible := true }
            else
              { blank with character := some ' ', collapsible := true }
          else { blank with character := some textChar }
        else { blank with character := some textChar }
      | none => blank
    | some (.element _ _ cs) =>
      let first : TextPos :=
        match cs.get? (pos.offset - 1) with
        | some (.element t _ _) =>
          if !isCollapsedNode d (pos.path ++ [pos.offset - 1]) then
            if t = "br" then { blank with character := some '\n', isBr := true }
            else
              match getTrailingSpace d (domSize d + 1) (pos.path ++ [pos.offset - 1]) with
              | some ch =>
                { blank with character := some ch, isTrailingSpace := true,
                             collapsible := true }
              | none => blank
          else blank
        | _ => blank
      if first.character.isSome then first
      else
        match cs.get? pos.offset with
        | some (.element _ _ _) =>
          if !isCollapsedNode d (pos.path ++ [pos.offset]) then
            match getLeadingSpace d (pos.path ++ [pos.offset]) with
            | some ch => { blank with character := some ch, isLeadingSpace := true }
            | none => blank
          else blank
        | _ => blank
    | _ => blank

/-- `getNextPossibleCharacter` (lines 691-700); fuel bounds the walk
(`posCount` suffices). -/
def getNextPossibleCharacter (d : DomNode) : Nat → Pos → Option TextPos
  | 0, _ => none
  | fuel + 1, pos =>
    match nextVisiblePosition d pos with
    | none => none
    | some nxt =>
      let next := getPossibleCharacterAt d nxt
      if next.character.isSome then some next
      else getNextPossibleCharacter d fuel nxt

/-- The backward walk of `getCharacterAt` (lines 711-725): `preceding` is the
nearest preceding position with a non-empty possible character. -/
def getPrecedingChar (d : DomNode) : Nat → Pos → Option TextPos
  | 0, _ => none
  | fuel + 1, pos =>
    match previousVisiblePosition d pos with
    | none => none
    | some prevPos =>
      let previous := getPossibleCharacterAt d prevPos
      if previous.character.isSome then some previous
      else getPrecedingChar d fuel prevPos

/-- `getCharacterAt` (lines 702-757). -/
def getCharacterAt (d : DomNode) (options : CharacterOptions) (pos : Pos) : TextPos :=
  let possible := getPossibleCharacterAt d pos
  match possible.character with
  | none => possible
  | some pc =>
    if spacesRegexChar pc then
      let preceding := getPrecedingChar d (posCount d + 1) pos
      -- lines 734-738: a collapsible space following a trailing space or
      -- line break, or standing first, is collapsed
      if pc = ' ' && possible.collapsible &&
          (match preceding with
           | none => true
           | some pr => pr.isTrailingSpace || pr.character = some '\n') then
        { possible with character := none }
      -- lines 741-746: a collapsible space followed by a collapsing line
      -- break, or by nothing, is collapsed
      else if possible.collapsible &&
          (match getNextPossibleCharacter d (posCount d + 1) pos with
           | none => true
           | some nxt =>
             nxt.character = some '\n' && options.collapseSpaceBeforeLineBreak &&
               nxt.collapsesPrecedingSpace) then
        { possible with character := none }
      -- lines 749-752: a br followed by a trailing space, or by nothing,
      -- is collapsed
      else if pc = '\n' && !possible.collapsible &&
          (match getNextPossibleCharacter d (posCount d + 1) pos with
           | none => true
           | some nxt => nxt.isTrailingSpace) then
        { possible with character := none }
      else possible
    else possible

/-! ### Character iterator (lines 760-832)

`createCharacterIterator` is embedded twice: as a list of the characters it
yields (used by every consumer that just drains it), and as the literal
stateful object with `next`/`rewind` (section further down), which the rewind
claims are about. -/

/-- Positions visited by the forward iterator after `startPos`: iterated
`nextVisiblePosition` (the `pos = nextVisiblePosition(pos)` step of `next()`,
line 784).  Fuel bounds the walk; `posCount` suffices. -/
def visChainFwd (d : DomNode) : Nat → Pos → List Pos
  | 0, _ => []
  | fuel + 1, pos =>
    match nextVisiblePosition d pos with
    | none => []
    | some nxt => nxt :: visChainFwd d fuel nxt

/-- Positions visited by the backward iterator: the start position itself,
then iterated `previousVisiblePosition` (lines 786-797). -/
def visChainBwd (d : DomNode) : Nat → Pos → List Pos
  | 0, _ => []
  | fuel + 1, pos =>
    pos ::
      (match previousVisiblePosition d pos with
       | none => []
       | some prev => visChainBwd d fuel prev)

/-- Cut a position chain at the first arrival at `e` (the
`pos.equals(endPos)` check of `next()`, line 789: the character at `e` is
still delivered, then the iterator is finished). -/
def takeUpThrough : List Pos → Pos → List Pos
  | [], _ => []
  | q :: rest, e => if q = e then [q] else q :: takeUpThrough rest e

/-- Characters yielded by a forward character iterator from `startPos` to
`endPos` (lines 760-818): the endPos adjustment for collapsed nodes
(lines 764-775), the visible-position walk, materialization, and the
skip-empty loop of the outer `next()` (lines 810-816). -/
def charStreamFwd (d : DomNode) (options : CharacterOptions) (startPos : Pos)
    (endPos : Option Pos) : List TextPos :=
  let endPosAdj :=
    match endPos with
    | some e => if isCollapsedNode d e.path then nextVisiblePosition d e else some e
    | none => none
  let chain := visChainFwd d (posCount d + 1) startPos
  let bounded :=
    match endPosAdj with
    | some e => takeUpThrough chain e
    | none => chain
  (bounded.map (getCharacterAt d options)).filter fun tp => tp.character.isSome

/-- Characters yielded by a backward character iterator (same, with
`previousVisiblePosition` for both the endPos adjustment and the walk). -/
def charStreamBwd (d : DomNode) (options : CharacterOptions) (startPos : Pos)
    (endPos : Option Pos) : List TextPos :=
  let endPosAdj :=
    match endPos with
    | some e => if isCollapsedNode d e.path then previousVisiblePosition d e else some e
    | none => none
  let chain := visChainBwd d (posCount d + 1) startPos
  let bounded :=
    match endPosAdj with
    | some e => takeUpThrough chain e
    | none => chain
  (bounded.map (getCharacterAt d options)).filter fun tp => tp.character.isSome

/-- A range over the embedded tree (the boundary points of a rangy Range). -/
structure TxRange where
  startPos : Pos
  endPos : Pos
deriving Repr, DecidableEq

/-- `createRangeCharacterIterator` (lines 1128-1132), as a character list. -/
def rangeCharacters (d : DomNode) (copts : CharacterOptions) (r : TxRange)
    (backward : Bool) : List TextPos :=
  if backward then charStreamBwd d copts r.endPos (some r.startPos)
  else charStreamFwd d copts r.startPos (some r.endPos)

/-- `text()` (lines 1360-1363): empty for a collapsed range, else the
concatenation of the characters between the boundaries. -/
def rangeText (d : DomNode) (r : TxRange) (copts : CharacterOptions) : String :=
  if r.startPos = r.endPos then ""
  else String.mk ((rangeCharacters d copts r false).filterMap fun tp => tp.character)

/-- `selectNodeContents` on the node at `p` (rangy core, modelled from its
interface): the range spanning the node's contents. -/
def selectNodeContentsRange (d : DomNode) (p : NodePath) : Option TxRange :=
  match nodeAt d p with
  | some n => some ⟨⟨p, 0⟩, ⟨p, getNodeLength n⟩⟩
  | none => none

/-! ### The character iterator as a stateful object (lines 760-832) -/

/-- The mutable state captured by the closures of `createCharacterIterator`:
`pos`/`finished` of the inner `next` (line 778), and
`previousTextPos`/`returnPreviousTextPos` of the outer object (line 802). -/
structure CharIterator where
  pos : Option Pos
  finished : Bool
  backward : Bool
  endPos : Option Pos
  previousTextPos : Option TextPos
  returnPreviousTextPos : Bool
deriving Repr, DecidableEq

/-- `createCharacterIterator` (lines 760-778): endPos adjustment plus the
initial state. -/
def createCharacterIterator (d : DomNode) (startPos : Pos) (backward : Bool)
    (endPos : Option Pos) : CharIterator :=
  let endPosAdj :=
    match endPos with
    | some e =>
      if isCollapsedNode d e.path then
        if backward then previousVisiblePosition d e else nextVisiblePosition d e
      else some e
    | none => none
  ⟨some startPos, false, backward, endPosAdj, none, false⟩

/-- The inner `next` closure (lines 780-800). -/
def charIterInnerNext (d : DomNode) (opts : CharacterOptions)
    (it : CharIterator) : Option TextPos × CharIterator :=
  if it.finished then (none, it)
  else
    let pos1 :=
      if !it.backward then
        match it.pos with
        | some p => nextVisiblePosition d p
        | none => none
      else it.pos
    let textPos :=
      match pos1 with
      | some p => some (getCharacterAt d opts p)
      | none => none
    let fin :=
      match pos1 with
      | some p => it.endPos = some p
      | none => true
    let pos2 :=
      if it.backward then
        match pos1 with
        | some p => previousVisiblePosition d p
        | none => none
      else pos1
    (textPos, { it with pos := pos2, finished := fin })

/-- The skip-empty loop of the outer `next` (lines 810-816); fuel bounds the
number of empty characters skipped. -/
def charIterNextLoop (d : DomNode) (opts : CharacterOptions) :
    Nat → CharIterator → Option TextPos × CharIterator
  | 0, it => (none, it)
  | fuel + 1, it =>
    let (tp, it') := charIterInnerNext d opts it
    match tp with
    | none => (none, it')
    | some t =>
      if t.character.isSome then (some t, { it' with previousTextPos := some t })
      else charIterNextLoop d opts fuel it'

/-- The outer `next` (lines 805-818). -/
def charIterNext (d : DomNode) (opts : CharacterOptions) (it : CharIterator) :
    Option TextPos × CharIterator :=
  if it.returnPreviousTextPos then
    (it.previousTextPos, { it with returnPreviousTextPos := false })
  else charIterNextLoop d opts (posCount d + 2) it

/-- `rewind` (lines 820-826). -/
def charIterRewind (it : CharIterator) : Except String CharIterator :=
  if it.previousTextPos.isSome then .ok { it with returnPreviousTextPos := true }
  else .error "createCharacterIterator: cannot rewind. Only one position can be rewound."

/-! ### Default tokenizer (lines 835-878) -/

/-- Word options: the pluggable word regex is a JS `exec` on a global regex,
modelled as a function from the input string and the regex's `lastIndex` to
the next match (index, length); `none` is a failed match.  The tokenizer
strategy itself is fixed to `defaultTokenizer` in this embedding. -/
structure WordOptions where
  execFn : String → Nat → Option (Nat × Nat)
  includeTrailingSpace : Bool

/-- `[a-z0-9]` under the `i` flag. -/
def isWordRegexChar (c : Char) : Bool :=
  ('a' ≤ c && c ≤ 'z') || ('A' ≤ c && c ≤ 'Z') || ('0' ≤ c && c ≤ '9')

/-- Length of the run of word characters at the head of the list. -/
def takeWhileCount (p : Char → Bool) : List Char → Nat
  | [] => 0
  | c :: rest => if p c then takeWhileCount p rest + 1 else 0

/-- Length matched by `('[a-z0-9]+)*` starting at index `j` (greedy). -/
def apostropheGroupsLen (s : List Char) : Nat → Nat → Nat
  | 0, _ => 0
  | fuel + 1, j =>
    if s.get? j = some '\'' then
      let run := takeWhileCount isWordRegexChar (s.drop (j + 1))
      if run = 0 then 0
      else (1 + run) + apostropheGroupsLen s fuel (j + 1 + run)
    else 0

/-- Scan for the first match of `/[a-z0-9]+('[a-z0-9]+)*/gi` at or after
index `i`. -/
def execDefaultFrom (s : List Char) : Nat → Nat → Option (Nat × Nat)
  | 0, _ => none
  | fuel + 1, i =>
    match s.get? i with
    | none => none
    | some c =>
      if isWordRegexChar c then
        let run := takeWhileCount isWordRegexChar (s.drop i)
        some (i, run + apostropheGroupsLen s s.length (i + run))
      else execDefaultFrom s fuel (i + 1)

/-- `exec` of the default word regex `/[a-z0-9]+('[a-z0-9]+)*/gi`
(line 1011). -/
def defaultWordRegexExec (s : String) (lastIndex : Nat) : Option (Nat × Nat) :=
  execDefaultFrom s.data (s.length + 1) lastIndex

/-- `defaultWordOptions["en"]` (lines 1009-1015). -/
def defaultWordOptions : WordOptions := ⟨defaultWordRegexExec, false⟩

/-- A token as a range `[start, stop)` of indices into the `chars` array
passed to the tokenizer (`createTokenFromRange`, lines 838-849, stores the
slice; the range form also records which array cells the slice came from). -/
structure Token where
  isWord : Bool
  start : Nat
  stop : Nat
deriving Repr, DecidableEq

/-- The `chars` slice held by a token (`chars.slice(start, end)`). -/
def tokenSlice {α} (chars : List α) (t : Token) : List α :=
  (chars.drop t.start).take (t.stop - t.start)

/-- The trailing-space extension of a word token (lines 863-867):
`while (nonLineBreakWhiteSpaceRegex.test(chars[wordEnd])) ++wordEnd`.  The
test coerces the array cell to a string; a missing cell (`undefined`) or an
empty character never matches. -/
def extendTrailingSpace (arr : List (Option Char)) : Nat → Nat → Nat
  | 0, we => we
  | fuel + 1, we =>
    match arr.get? we with
    | some (some c) =>
      if nonLineBreakWhiteSpaceChar c then extendTrailingSpace arr fuel (we + 1)
      else we
    | _ => we

/-- The `while ((result = wordOptions.wordRegex.exec(word)))` loop of
`defaultTokenizer` (lines 852-877) over the joined string `word`, tracking
the regex's `lastIndex` and `lastWordEnd`.  The trailing non-word token is
created when `exec` fails.  Fuel bounds the number of matches (the JS loop
diverges on a regex that stops advancing `lastIndex`; with such a regex no
token list is ever returned, and here the fuel runs out). -/
def defaultTokenizerLoop (word : String) (arr : List (Option Char))
    (wo : WordOptions) : Nat → Nat → Nat → List Token
  | 0, _, _ => []
  | fuel + 1, lastIndex, lastWordEnd =>
    match wo.execFn word lastIndex with
    | none =>
      if lastWordEnd < arr.length then [⟨false, lastWordEnd, arr.length⟩] else []
    | some (ws, len) =>
      let wordEnd := ws + len
      let pre : List Token :=
        if lastWordEnd < ws then [⟨false, lastWordEnd, ws⟩] else []
      let wordEnd' :=
        if wo.includeTrailingSpace then
          extendTrailingSpace arr (arr.length + 1) wordEnd
        else wordEnd
      pre ++ ⟨true, ws, wordEnd'⟩ ::
        defaultTokenizerLoop word arr wo fuel (ws + len) wordEnd'

/-- `defaultTokenizer` (lines 835-878) over the array of (string coercions
of) characters; `word` is `chars.join("")`, in which empty characters
contribute nothing. -/
def defaultTokenizer (arr : List (Option Char)) (wo : WordOptions) : List Token :=
  let word := String.mk (arr.filterMap id)
  defaultTokenizerLoop word arr wo (word.length + 1) 0 0

/-! ### Tokenized text provider (lines 893-992) -/

/-- A token as held by the provider: classification plus the actual
character slice (`token.chars`). -/
structure PToken where
  isWord : Bool
  chars : List TextPos
deriving Repr, DecidableEq

/-- Materialize range tokens over a character array. -/
def pTokensOf (chars : List TextPos) (ts : List Token) : List PToken :=
  ts.map fun t => ⟨t.isWord, tokenSlice chars t⟩

/-- Run the (default) tokenizer on provider characters: the string coercion
of a `TextPosition` is its character. -/
def tokenizeChars (chars : List TextPos) (wo : WordOptions) : List Token :=
  defaultTokenizer (chars.map fun tp => tp.character) wo

/-- `chars[i].token` after tokenization: tokens assign themselves to their
characters in creation order (lines 845-847), so a cell belongs to the last
token whose range contains it; `arrayIndexOf(tokens, ·)` then recovers that
token's index.  `none` models a cell no token claimed (`undefined`). -/
def tokenIndexForChar (ts : List Token) (idx : Nat) : Option Nat :=
  (ts.enum.filter fun ti => ti.2.start ≤ idx && idx < ti.2.stop).getLast?.map
    fun ti => ti.1

/-- `consumeWord` (lines 901-929) acting on the remaining characters of one
iterator; the one-shot `rewind` on the breaking character is modelled by
leaving that character in the remainder.  Returns (consumed chars,
remainder). -/
def consumeWordFrom : List TextPos → Bool → Bool → List TextPos × List TextPos
  | [], _, _ => ([], [])
  | tp :: rest, insideWord, passedWordBoundary =>
    let isWs :=
      match tp.character with
      | some c => allWhiteSpaceChar c
      | none => false
    if isWs then
      let passed' := if insideWord then true else passedWordBoundary
      let (cons, rst) := consumeWordFrom rest false passed'
      (tp :: cons, rst)
    else
      if passedWordBoundary then ([], tp :: rest)
      else
        let (cons, rst) := consumeWordFrom rest true passedWordBoundary
        (tp :: cons, rst)

def consumeWord (stream : List TextPos) : List TextPos × List TextPos :=
  consumeWordFrom stream false false

/-- State of `createTokenizedTextProvider`: the two iterators' remainders and
the two token buffers. -/
structure ProviderState where
  fwdRest : List TextPos
  bwdRest : List TextPos
  fwdBuffer : List PToken
  bwdBuffer : List PToken
deriving Repr, DecidableEq

/-- `createTokenizedTextProvider` initialization (lines 895-941): consume one
chunk in each direction, tokenize the concatenation, and split the token
list into the forward buffer (from the first forward character's token) and
the backward buffer (up to the last backward character's token).
`tokens.slice(arrayIndexOf(tokens, x))` with an unassigned token slices from
-1, i.e. keeps only the last token; the backward analog keeps nothing. -/
def createTokenizedTextProvider (d : DomNode) (copts : CharacterOptions)
    (wopts : WordOptions) (pos : Pos) : ProviderState :=
  let (forwardChars, fwdRest) := consumeWord (charStreamFwd d copts pos none)
  let (backwardRaw, bwdRest) := consumeWord (charStreamBwd d copts pos none)
  let backwardChars := backwardRaw.reverse
  let allChars := backwardChars ++ forwardChars
  let ranges := tokenizeChars allChars wopts
  let toks := pTokensOf allChars ranges
  let fwdBuffer :=
    if forwardChars.length ≠ 0 then
      match tokenIndexForChar ranges backwardChars.length with
      | some k => toks.drop k
      | none => toks.drop (toks.length - 1)
    else []
  let bwdBuffer :=
    if backwardChars.length ≠ 0 then
      match tokenIndexForChar ranges (backwardChars.length - 1) with
      | some k => toks.take (k + 1)
      | none => []
    else []
  ⟨fwdRest, bwdRest, fwdBuffer, bwdBuffer⟩

/-- `nextEndToken` (lines 954-967): while the buffer holds a single non-word
token and more characters can be consumed, merge and re-tokenize; then shift
the first buffered token.  Fuel bounds the merges (each consumes at least
one character of the forward remainder). -/
def nextEndTokenLoop (wopts : WordOptions) :
    Nat → ProviderState → Option PToken × ProviderState
  | 0, st => (none, st)
  | fuel + 1, st =>
    match st.fwdBuffer with
    | [tok] =>
      if !tok.isWord then
        let (newChars, rest) := consumeWord st.fwdRest
        if newChars.length ≠ 0 then
          let merged := tok.chars ++ newChars
          nextEndTokenLoop wopts fuel
            { st with fwdRest := rest,
                      fwdBuffer := pTokensOf merged (tokenizeChars merged wopts) }
        else (some tok, { st with fwdRest := rest, fwdBuffer := [] })
      else (some tok, { st with fwdBuffer := [] })
    | t :: rest => (some t, { st with fwdBuffer := rest })
    | [] => (none, st)

def providerNextEndToken (wopts : WordOptions) (st : ProviderState) :
    Option PToken × ProviderState :=
  nextEndTokenLoop wopts (st.fwdRest.length + 1) st

/-- `previousStartToken` (lines 970-984).  Its merge branch calls
`tokenizer(..., options)` where `options` is not a name in scope
(line 980); reaching it throws a ReferenceError, modelled as an error. -/
def providerPreviousStartToken (st : ProviderState) :
    Except String (Option PToken × ProviderState) :=
  match st.bwdBuffer with
  | [tok] =>
    if !tok.isWord then
      let (newChars, rest) := consumeWord st.bwdRest
      if newChars.length ≠ 0 then
        .error "previousStartToken: options is not defined"
      else .ok (some tok, { st with bwdRest := rest, bwdBuffer := [] })
    else .ok (some tok, { st with bwdBuffer := [] })
  | [] => .ok (none, st)
  | ts => .ok (ts.getLast?, { st with bwdBuffer := ts.dropLast })

/-! ### movePositionBy (lines 1059-1126) -/

structure MoveResult where
  position : Pos
  unitsMoved : Int
deriving Repr, DecidableEq

/-- The word-unit loop of `movePositionBy` (lines 1080-1087): pop tokens,
counting only word tokens; note the loop condition calls `next()` once more
after the count is reached.  Returns (unitsMoved, newTextPos). -/
def movePosWordLoop (wopts : WordOptions) (backward : Bool) (absCount : Nat) :
    Nat → ProviderState → Nat → Option TextPos →
    Except String (Nat × Option TextPos)
  | 0, _, unitsMoved, newTextPos => .ok (unitsMoved, newTextPos)
  | fuel + 1, st, unitsMoved, newTextPos => do
    let (tokOpt, st') ←
      if backward then providerPreviousStartToken st
      else pure (providerNextEndToken wopts st)
    match tokOpt with
    | none => .ok (unitsMoved, newTextPos)
    | some tok =>
      if unitsMoved < absCount then
        if tok.isWord then
          movePosWordLoop wopts backward absCount fuel st' (unitsMoved + 1)
            (if backward then tok.chars.head? else tok.chars.getLast?)
        else movePosWordLoop wopts backward absCount fuel st' unitsMoved newTextPos
      else .ok (unitsMoved, newTextPos)

/-- `movePositionBy` (lines 1059-1126). -/
def movePositionBy (d : DomNode) (pos : Pos) (unit : String) (count : Int)
    (characterOptions : CharacterOptions) (wordOptions : WordOptions) :
    Except String MoveResult :=
  if count = 0 then .ok ⟨pos, 0⟩
  else
    let backward := count < 0
    let absCount := count.natAbs
    let step : Except String (Nat × Option TextPos × Option TextPos) :=
      if unit = "character" then
        let stream :=
          if backward then charStreamBwd d characterOptions pos none
          else charStreamFwd d characterOptions pos none
        let consumed := stream.take absCount
        .ok (consumed.length, consumed.getLast?, stream.get? absCount)
      else if unit = "word" then
        let st := createTokenizedTextProvider d characterOptions wordOptions pos
        let fuel := st.fwdRest.length + st.bwdRest.length +
          st.fwdBuffer.length + st.bwdBuffer.length + absCount + 2
        match movePosWordLoop wordOptions backward absCount fuel st 0 none with
        | .error e => .error e
        | .ok (um, ntp) => .ok (um, ntp, (none : Option TextPos))
      else .error ("movePositionBy: unit '" ++ unit ++ "' not implemented")
    match step with
    | .error e => .error e
    | .ok (unitsMoved, newTextPos, nextTextPos) =>
      let newPos :=
        match newTextPos with
        | some tp => tp.position
        | none => pos
      if backward then
        match previousVisiblePosition d newPos with
        | some np => .ok ⟨np, -(unitsMoved : Int)⟩
        | none => .error "movePositionBy: null position"
      else
        match newTextPos with
        | some tp =>
          if tp.isLeadingSpace then
            let nextTextPos' :=
              if unit = "word" then (charStreamFwd d characterOptions pos none).head?
              else nextTextPos
            match nextTextPos' with
            | some nt =>
              match previousVisiblePosition d nt.position with
              | some np => .ok ⟨np, (unitsMoved : Int)⟩
              | none => .error "movePositionBy: null position"
            | none => .ok ⟨newPos, (unitsMoved : Int)⟩
          else .ok ⟨newPos, (unitsMoved : Int)⟩
        | none => .ok ⟨newPos, (unitsMoved : Int)⟩

/-! ### Range extensions (lines 1240-1487) -/

/-- `createRangeBoundaryMover(isStart, collapse)` (lines 1240-1271), applied
to a range: returns the units moved and the updated range.
`moveStart` = (true, false), `moveEnd` = (false, false),
`move` = (true, true). -/
def rangeMoveBoundary (d : DomNode) (isStart collapse : Bool) (r : TxRange)
    (unit : String) (count : Int) (copts : CharacterOptions)
    (wopts : WordOptions) : Except String (Int × TxRange) :=
  let boundaryIsStart := if collapse then decide (0 ≤ count) else isStart
  let r1 :=
    if collapse then
      if 0 ≤ count then (⟨r.endPos, r.endPos⟩ : TxRange) else ⟨r.startPos, r.startPos⟩
    else r
  let pos := if boundaryIsStart then r1.startPos else r1.endPos
  match movePositionBy d pos unit count copts wopts with
  | .error e => .error e
  | .ok mr =>
    let r2 :=
      if boundaryIsStart then { r1 with startPos := mr.position }
      else { r1 with endPos := mr.position }
    .ok (mr.unitsMoved, r2)

def rangeMoveStart (d : DomNode) (r : TxRange) (unit : String) (count : Int)
    (copts : CharacterOptions) (wopts : WordOptions) :
    Except String (Int × TxRange) :=
  rangeMoveBoundary d true false r unit count copts wopts

def rangeMoveEnd (d : DomNode) (r : TxRange) (unit : String) (count : Int)
    (copts : CharacterOptions) (wopts : WordOptions) :
    Except String (Int × TxRange) :=
  rangeMoveBoundary d false false r unit count copts wopts

/-- `createRangeTrimmer(isStart)` (lines 1273-1293). -/
def rangeTrim (d : DomNode) (isStart : Bool) (r : TxRange)
    (copts : CharacterOptions) : Except String (Bool × TxRange) := do
  let stream := rangeCharacters d copts r (!isStart)
  let trimCharCount :=
    (stream.takeWhile fun tp =>
      match tp.character with
      | some c => allWhiteSpaceChar c
      | none => false).length
  if trimCharCount > 0 then
    let count : Int :=
      if isStart then (trimCharCount : Int) else -(trimCharCount : Int)
    let (_, r') ←
      rangeMoveBoundary d isStart false r "character" count copts defaultWordOptions
    .ok (true, r')
  else .ok (false, r)

/-- `expand` options (lines 1045-1051). -/
structure ExpandOptions where
  trim : Bool := false
  trimStart : Bool := true
  trimEnd : Bool := true
deriving Repr, DecidableEq

def defaultExpandOptions : ExpandOptions := {}

/-- `expand` (lines 1311-1358).  For the `word` unit, snap the boundaries to
the surrounding tokens; for any other unit, fall through to
`moveEnd("character", 1)` (line 1356) whose numeric return is truthy iff a
unit was moved.  JS crashes on an undefined token or an empty `chars` array
are errors. -/
def rangeExpand (d : DomNode) (r : TxRange) (unit : String)
    (copts : CharacterOptions) (wopts : WordOptions) (eopts : ExpandOptions) :
    Except String (Bool × TxRange) :=
  if unit = "word" then
    let startP := r.startPos
    let endP := r.endPos
    match providerNextEndToken wopts (createTokenizedTextProvider d copts wopts startP) with
    | (none, _) => .error "expand: startToken is undefined"
    | (some startTok, _) =>
      match startTok.chars.head? with
      | none => .error "expand: startToken has no chars"
      | some firstChar =>
        match previousVisiblePosition d firstChar.position with
        | none => .error "expand: null start position"
        | some newStartPos =>
          let endTokE : Except String PToken :=
            if r.startPos = r.endPos then .ok startTok
            else
              match providerPreviousStartToken
                  (createTokenizedTextProvider d copts wopts endP) with
              | .ok (some tok, _) => .ok tok
              | .ok (none, _) => .error "expand: endToken is undefined"
              | .error e => .error e
          match endTokE with
          | .error e => .error e
          | .ok endTok =>
            match endTok.chars.getLast? with
            | none => .error "expand: endToken has no chars"
            | some lastChar =>
              let newEndPos := lastChar.position
              let moved1 : Bool := decide (newStartPos ≠ startP)
              let r1 := if moved1 then { r with startPos := newStartPos } else r
              let moved2 : Bool := decide (newEndPos ≠ endP)
              let r2 := if moved2 then { r1 with endPos := newEndPos } else r1
              let moved := moved1 || moved2
              if eopts.trim then
                match (if eopts.trimStart then rangeTrim d true r2 copts
                       else .ok (false, r2)) with
                | .error e => .error e
                | .ok (m3, r3) =>
                  match (if eopts.trimEnd then rangeTrim d false r3 copts
                         else .ok (false, r3)) with
                  | .error e => .error e
                  | .ok (m4, r4) => .ok (moved || m3 || m4, r4)
              else .ok (moved, r2)
  else
    match rangeMoveEnd d r "character" 1 copts wopts with
    | .ok (units, r') => .ok (decide (units ≠ 0), r')
    | .error e => .error e

/-- `isWholeWord` (lines 1147-1154): build a range over the candidate match
and test that `expand("word", wordOptions)` does not move it.  The call
passes the word options where expand options are expected; a word-options
object carries no `trim`/`wordOptions`/`characterOptions` fields, so the
expansion actually runs with the default expand, character and word
options - whatever word options the caller supplied. -/
def isWholeWord (d : DomNode) (startP endP : Pos) : Except String Bool :=
  match rangeExpand d ⟨startP, endP⟩ "word" defaultCharacterOptions
      defaultWordOptions defaultExpandOptions with
  | .ok (moved, _) => .ok (!moved)
  | .error e => .error e

/-! ### selectCharacters / toCharacterRange (lines 1365-1398) -/

/-- `selectCharacters` (lines 1365-1372): select the container's contents,
collapse, move the start by `startIndex` characters, collapse, move the end
by `endIndex - startIndex` characters. -/
def selectCharacters (d : DomNode) (containerPath : NodePath)
    (startIndex endIndex : Int) (copts : CharacterOptions) :
    Except String TxRange :=
  match nodeAt d containerPath with
  | none => .error "selectCharacters: no such container"
  | some container =>
    let r0 : TxRange :=
      ⟨⟨containerPath, 0⟩, ⟨containerPath, getNodeLength container⟩⟩
    let r1 : TxRange := ⟨r0.startPos, r0.startPos⟩
    match rangeMoveStart d r1 "character" startIndex copts defaultWordOptions with
    | .error e => .error e
    | .ok (_, r2) =>
      let r3 : TxRange := ⟨r2.startPos, r2.startPos⟩
      match rangeMoveEnd d r3 "character" (endIndex - startIndex) copts
          defaultWordOptions with
      | .error e => .error e
      | .ok (_, r4) => .ok r4

/-- Lexicographic strict order on index lists (document order on boundary
keys). -/
def natListLt : List Nat → List Nat → Bool
  | [], [] => false
  | [], _ :: _ => true
  | _ :: _, [] => false
  | a :: as, b :: bs => if a < b then true else if b < a then false else natListLt as bs

/-- The boundary key of a position: its node path followed by its offset;
lexicographic order on keys is document order on positions. -/
def keyOf (p : Pos) : List Nat := p.path ++ [p.offset]

/-- The first-differing-child-index comparison used by rangy core
`comparePoints` when the two nodes lie in disjoint subtrees. -/
def comparePathsDoc : List Nat → List Nat → Int
  | a :: as, b :: bs =>
    if a < b then -1 else if b < a then 1 else comparePathsDoc as bs
  | _, _ => 0

/-- rangy core `comparePoints` as invoked at line 1380:
`comparePoints(this.startContainer, this.endContainer, parent, nodeIndex)`
passes the end container where an offset belongs.  In rangy core the offset
arguments are only compared numerically; comparing a node against a number
yields NaN and hence false, so those branches answer 1.  The remaining
branches compare tree order proper. -/
def comparePointsNodeArg (startC par : NodePath) (nodeIdx : Nat) : Int :=
  if startC = par then 1
  else if startC.isPrefixOf par then 1
  else if par.isPrefixOf startC then
    if (startC.get? par.length).getD 0 < nodeIdx then -1 else 1
  else comparePathsDoc startC par

/-- `CharacterRange` `{start, end}` (lines 1394-1397); `stop` models `end`
(a reserved word in Lean). -/
structure CharacterRange where
  start : Int
  stop : Int
deriving Repr, DecidableEq

/-- `toCharacterRange` (lines 1375-1398).  A container without a parent
makes the source crash on `getNodeIndex(parent)` (an error here). -/
def toCharacterRange (d : DomNode) (r : TxRange) (containerPath : NodePath)
    (copts : CharacterOptions) : Except String CharacterRange :=
  match containerPath with
  | [] => .error "toCharacterRange: container has no parent"
  | _ =>
    let par := containerPath.dropLast
    let nodeIndex := lastIdxOf containerPath
    let rangeStartsBeforeNode := comparePointsNodeArg r.startPos.path par nodeIndex = -1
    let startIndex : Int :=
      if rangeStartsBeforeNode then
        -((rangeText d ⟨r.startPos, ⟨par, nodeIndex⟩⟩ copts).length : Int)
      else
        ((rangeText d ⟨⟨par, nodeIndex⟩, r.startPos⟩ copts).length : Int)
    .ok ⟨startIndex, startIndex + ((rangeText d r copts).length : Int)⟩

/-! ### Find engine (lines 1156-1224 and 1400-1476) -/

/-- A search term: a string literal, or a pattern modelled as a (stateless)
`exec` returning the first match (index, length) in the given string. -/
inductive SearchTerm where
  | str (s : String)
  | regex (exec : String → Option (Nat × Nat))

/-- `findTextFromPosition` passes the whole find-options object as the
iterator's character options (line 1163); a find-options object has no
`collapseSpaceBeforeLineBreak` field, so the iterator runs with that option
effectively false. -/
def findCharacterOptions : CharacterOptions := ⟨false⟩

/-- The find options actually consulted by the loop.  `backward` is
`isDirectionBackward(direction)`. -/
structure FindOptions where
  caseSensitive : Bool := false
  withinRange : Option TxRange := none
  wholeWordsOnly : Bool := false
  wrap : Bool := false
  backward : Bool := false

structure FindResultR where
  startPos : Pos
  endPos : Pos
  valid : Bool
deriving Repr, DecidableEq

/-- `handleMatch` (lines 1169-1179): derive the boundary positions from the
matched characters and validate against the whole-word constraint. -/
def handleMatch (d : DomNode) (fo : FindOptions) (chars : List TextPos)
    (startIndex endIndex : Nat) : Except String FindResultR :=
  match chars.get? startIndex with
  | none => .error "handleMatch: no character at the match start"
  | some s0 =>
    match previousVisiblePosition d s0.position with
    | none => .error "handleMatch: null start position"
    | some startP =>
      match chars.get? (endIndex - 1) with
      | none => .error "handleMatch: no character at the match end"
      | some e0 =>
        if fo.wholeWordsOnly then
          match isWholeWord d startP e0.position with
          | .ok valid => .ok ⟨startP, e0.position, valid⟩
          | .error e => .error e
        else .ok ⟨startP, e0.position, true⟩

/-- First index of `ndl` inside `hay` (`String.prototype.indexOf`). -/
def substrIdxAux (ndl : List Char) : List Char → Nat → Option Nat
  | [], i => if ndl.isEmpty then some i else none
  | c :: rest, i =>
    if ndl.isPrefixOf (c :: rest) then some i else substrIdxAux ndl rest (i + 1)

def substrIdx (hay ndl : List Char) : Option Nat := substrIdxAux ndl hay 0

/-- The scanning loop of `findTextFromPosition` (lines 1181-1220), processing
the iterator's characters in order.  State: accumulated text (prepended when
backward), accumulated characters, `insideRegexMatch`, and the last recorded
match bounds (unset until a pattern match is re-confirmed, matching the
source where `matchStartIndex` is only assigned inside the
`insideRegexMatch` branch). -/
def findScanLoop (fo : FindOptions) (term : SearchTerm) :
    List TextPos → List Char → List TextPos → Bool → Option (Nat × Nat) →
    Except String (Option (List TextPos × Nat × Nat))
  | [], _text, chars, insideRegexMatch, bounds =>
    -- lines 1217-1220: a pattern match still open at the end of the scope is
    -- completed there; if no bounds were ever recorded the source reads
    -- undefined indices and crashes inside handleMatch
    if insideRegexMatch then
      match bounds with
      | some (msi, mei) => .ok (some (chars, msi, mei))
      | none => .error "handleMatch: match bounds are undefined"
    else .ok none
  | tp :: rest, text, chars, insideRegexMatch, bounds =>
    match tp.character with
    | none => findScanLoop fo term rest text chars insideRegexMatch bounds
    | some c0 =>
      let c :=
        match term with
        | .str _ => if !fo.caseSensitive then c0.toLower else c0
        | .regex _ => c0
      let text' := if fo.backward then c :: text else text ++ [c]
      let chars' := if fo.backward then tp :: chars else chars ++ [tp]
      match term with
      | .regex ex =>
        (match ex (String.mk text') with
         | some (idx, len) =>
           if insideRegexMatch then
             if (!fo.backward && idx + len < text'.length) ||
                 (fo.backward && 0 < idx) then
               .ok (some (chars', idx, idx + len))
             else
               findScanLoop fo term rest text' chars' true (some (idx, len))
           else findScanLoop fo term rest text' chars' true bounds
         | none => findScanLoop fo term rest text' chars' insideRegexMatch bounds)
      | .str s =>
        match substrIdx text' s.data with
        | some idx => .ok (some (chars', idx, idx + s.length))
        | none => findScanLoop fo term rest text' chars' insideRegexMatch bounds

/-- `findTextFromPosition` (lines 1156-1224).  The scanning loop reports the
break point (accumulated characters and match bounds); `handleMatch` - a
pure function invoked exactly once, at the break - is applied to it here. -/
def findTextFromPosition (d : DomNode) (startAt : Pos) (term : SearchTerm)
    (scope : TxRange) (fo : FindOptions) : Except String (Option FindResultR) :=
  let stream :=
    if fo.backward then
      charStreamBwd d findCharacterOptions startAt (some scope.startPos)
    else charStreamFwd d findCharacterOptions startAt (some scope.endPos)
  match findScanLoop fo term stream [] [] false none with
  | .error e => .error e
  | .ok none => .ok none
  | .ok (some (ch, si, ei)) => (handleMatch d fo ch si ei).map some

/-- rangy core `range.comparePoint` (external; modelled from its documented
document-order interface): -1 before the range, 1 after it, 0 inside. -/
def comparePointInRange (scope : TxRange) (p : Pos) : Int :=
  if natListLt (keyOf p) (keyOf scope.startPos) then -1
  else if natListLt (keyOf scope.endPos) (keyOf p) then 1
  else 0

/-- The `while (true)` retry loop of `findText` (lines 1446-1475) with its
state made explicit: current scope, the clamped initial position, the
current search position, and the `wrappedAround` flag.  Fuel bounds the
retries. -/
def findTextGo (d : DomNode) (term : SearchTerm) (fo : FindOptions) :
    Nat → TxRange → Pos → Pos → Bool → Except String (Option TxRange)
  | 0, _, _, _, _ => .error "findText: ran out of fuel"
  | fuel + 1, scope, initialP, pos, wrapped =>
    match findTextFromPosition d pos term scope fo with
    | .error e => .error e
    | .ok (some res) =>
      if res.valid then .ok (some ⟨res.startPos, res.endPos⟩)
      else
        findTextGo d term fo fuel scope initialP
          (if fo.backward then res.startPos else res.endPos) wrapped
    | .ok none =>
      if fo.wrap && !wrapped then
        if fo.backward then
          findTextGo d term fo fuel ⟨initialP, scope.endPos⟩ initialP
            scope.endPos true
        else
          findTextGo d term fo fuel ⟨scope.startPos, initialP⟩ initialP
            scope.startPos true
      else .ok none

/-- Fuel for the retry loop: each invalid match advances the search position
and at most one wrap occurs. -/
def findFuel (d : DomNode) : Nat := 2 * posCount d + 4

/-- `findText` (lines 1400-1476).  On success the range is set to the match;
`none` models the `false` return.  When `wholeWordsOnly` is set the source
builds word options with `includeTrailingSpace` forced false, but those word
options are only ever handed to `isWholeWord`, which (through the
expand-options slip) expands with the defaults regardless. -/
def findText (d : DomNode) (r : TxRange) (termParam : SearchTerm)
    (fo : FindOptions) : Except String (Option TxRange) :=
  let scope :=
    match fo.withinRange with
    | some s => s
    | none => ⟨⟨[], 0⟩, ⟨[], getNodeLength d⟩⟩
  let term :=
    match termParam with
    | .str s => SearchTerm.str (if !fo.caseSensitive then s.toLower else s)
    | t => t
  let initialP0 := if fo.backward then r.endPos else r.startPos
  let cmp := comparePointInRange scope initialP0
  let initialP :=
    if cmp = -1 then scope.startPos
    else if cmp = 1 then scope.endPos
    else initialP0
  findTextGo d term fo (findFuel d) scope initialP initialP false

/-! ### Selection save/restore (selectionsaverestore.js)

The module's collaborators (document, selection, rangy ranges) are abstracted
to what `restoreSelection` touches: which marker elements are present in the
document, and the current selection. -/

/-- One entry of `rangeInfos` (lines 60-63 of selectionsaverestore.js). -/
structure RangeInfo where
  startMarkerId : String
  endMarkerId : String
deriving Repr, DecidableEq

/-- The object returned by `saveSelection` (lines 68-73), restricted to the
fields `restoreSelection` reads. -/
structure SavedSelection where
  rangeInfos : List RangeInfo
  restored : Bool
deriving Repr, DecidableEq

/-- Document and selection state as seen by this module: the ids of marker
elements present, and the selection as the list of restored marker pairs. -/
structure SelState where
  markerIds : List String
  selRanges : List RangeInfo
deriving Repr, DecidableEq

/-- `setRangeBoundary` (lines 41-45): look the marker up by id and remove it;
a missing marker makes `setStartBefore`/`setEndBefore` throw on null. -/
def setRangeBoundary (st : SelState) (markerId : String) :
    Except String SelState :=
  if st.markerIds.contains markerId then
    .ok { st with markerIds := st.markerIds.filter fun i => i ≠ markerId }
  else .error "setRangeBoundary: marker element not found"

/-- The body of the restore loop for one `rangeInfo` (lines 81-87): set both
boundaries (removing both markers) and add the range to the selection. -/
def restoreOneRange (st : SelState) (ri : RangeInfo) : Except String SelState := do
  let st1 ← setRangeBoundary st ri.startMarkerId
  let st2 ← setRangeBoundary st1 ri.endMarkerId
  .ok { st2 with selRanges := st2.selRanges ++ [ri] }

def restoreRangesLoop (st : SelState) : List RangeInfo → Except String SelState
  | [] => .ok st
  | ri :: rest => do
    let st' ← restoreOneRange st ri
    restoreRangesLoop st' rest

/-- `restoreSelection` (lines 76-91): a no-op when already restored;
otherwise clear the selection, restore each saved range from its markers,
and set the `restored` flag. -/
def restoreSelection (sv : SavedSelection) (st : SelState) :
    Except String (SavedSelection × SelState) :=
  if sv.restored then .ok (sv, st)
  else
    match restoreRangesLoop { st with selRanges := [] } sv.rangeInfos with
    | .ok st2 => .ok ({ sv with restored := true }, st2)
    | .error e => .error e

/-! ### Well-formedness and concrete documents -/

-- A well-formed tree: elements whose tag cannot contain positions (the
-- void tags) have no children, as in any tree produced by an HTML parser.
mutual

def wfNode : DomNode → Bool
  | .element t _ cs => (!(voidTags.contains t) || cs.isEmpty) && wfList cs
  | _ => true

def wfList : List DomNode → Bool
  | [] => true
  | c :: cs => wfNode c && wfList cs

end

def styleBlock : ElemStyle := ⟨"block", "normal", "visible"⟩

def styleInline : ElemStyle := ⟨"inline", "normal", "visible"⟩

def styleNone : ElemStyle := ⟨"none", "normal", "visible"⟩

/-- `<div>a  b</div>` with normal whitespace (claim C5's scenario). -/
def docC5 : DomNode := .element "div" styleBlock [.text "a  b"]

/-- A document with a doubly nested collapsed context: a hidden div whose
span child contains a text node (claim C4's counterexample). -/
def docC4bad : DomNode :=
  .element "div" styleBlock
    [.element "div" styleNone [.element "span" styleInline [.text "x"]],
     .text "b"]

/-- `<div>ab</div>` (witness document for several claims). -/
def docDivAb : DomNode := .element "div" styleBlock [.text "ab"]

/-- `<div>concatenate cat</div>` (whole-word search scenario). -/
def docConcat : DomNode := .element "div" styleBlock [.text "concatenate cat"]

/-- `<div>cat dog</div>` (wrap-around search scenario). -/
def docCatDog : DomNode := .element "div" styleBlock [.text "cat dog"]

/-- A visible text container in a block: the parametric container family of
claim C1's amended statement (the container under scrutiny is the text node
at path `[0]`). -/
def divTextDoc (s : String) : DomNode := .element "div" styleBlock [.text s]

/-- A hidden (collapsed) container followed by a block: the plain-text
projection of the hidden span is the block's leading line break (claim C1's
counterexample). -/
def docC1bad : DomNode :=
  .element "div" styleBlock
    [.element "span" styleNone [.text "a"],
     .element "p" styleBlock [.text "z"]]

/-- `exec` of the JS regex `/[x ]/g`: first character equal to `x` or space
at or after `lastIndex` (claim C3's counterexample word regex). -/
def execXorSpaceFrom (s : List Char) : Nat → Nat → Option (Nat × Nat)
  | 0, _ => none
  | fuel + 1, i =>
    match s.get? i with
    | none => none
    | some c =>
      if c = 'x' || c = ' ' then some (i, 1) else execXorSpaceFrom s fuel (i + 1)

def execXorSpace (s : String) (lastIndex : Nat) : Option (Nat × Nat) :=
  execXorSpaceFrom s.data (s.length + 1) lastIndex

/-- A fresh forward iterator over `docDivAb`, its state after one successful
`next()`, and that state with the rewind flag set. -/
def c7it0 : CharIterator := createCharacterIterator docDivAb ⟨[], 0⟩ false none

def c7step1 : Option TextPos × CharIterator :=
  charIterNext docDivAb defaultCharacterOptions c7it0

def c7it1 : CharIterator := c7step1.2

def c7it2 : CharIterator := { c7it1 with returnPreviousTextPos := true }

/-- A position in well-behaved territory: its node exists, can contain
positions, the offset is in range, and neither its node nor any ancestor is
collapsed. -/
def goodPos (d : DomNode) (p : Pos) : Bool :=
  match nodeAt d p.path with
  | some n =>
    containsPositions n && decide (p.offset ≤ getNodeLength n) &&
      (ancestorsAndSelf p.path).all fun q => !isCollapsedNode d q
  | none => false

/-- `coversFrom a b ts`: the tokens `ts` are consecutive index intervals
starting at `a` and ending at `b` (each token starts where its predecessor
stopped), so together they cover `[a, b)` with no gap and no overlap. -/
def coversFrom : Nat → Nat → List Token → Bool
  | a, b, [] => a == b
  | a, b, t :: ts => (t.start == a) && decide (a ≤ t.stop) && coversFrom t.stop b ts

/-! ### Basic facts about the tree model -/

@[simp] lemma childrenOf_text (s : String) : (DomNode.text s).childrenOf = [] := rfl

@[simp] lemma childrenOf_comment (s : String) : (DomNode.comment s).childrenOf = [] := rfl

@[simp] lemma childrenOf_pi (s : String) : (DomNode.pi s).childrenOf = [] := rfl

@[simp] lemma childrenOf_element (t st cs) :
    (DomNode.element t st cs).childrenOf = cs := rfl

@[simp] lemma nodeAt_nil (d : DomNode) : nodeAt d [] = some d := rfl

lemma nodeAt_concat (d : DomNode) (pp : NodePath) (i : Nat) :
    nodeAt d (pp ++ [i]) = (nodeAt d pp).bind fun n => n.childrenOf.get? i := by
  unfold nodeAt
  induction pp generalizing d with
  | nil =>
    simp only [List.nil_append, nodeAtPath, Option.bind]
    cases d.childrenOf.get? i <;> rfl
  | cons j rest ih =>
    simp only [List.cons_append, nodeAtPath]
    cases d.childrenOf.get? j with
    | none => rfl
    | some c => exact ih c

lemma isElement_of_child (n c : DomNode) (i : Nat)
    (h : n.childrenOf.get? i = some c) : n.isElement = true := by
  cases n <;> simp_all [DomNode.childrenOf, DomNode.isElement]

lemma not_charData_of_child (n c : DomNode) (i : Nat)
    (h : n.childrenOf.get? i = some c) : isCharacterDataNode n = false := by
  cases n <;> simp_all [DomNode.childrenOf, isCharacterDataNode]

lemma self_mem_ancestorsAndSelf (p : NodePath) : p ∈ ancestorsAndSelf p := by
  unfold ancestorsAndSelf
  exact List.mem_map.mpr ⟨p.length, List.self_mem_range_succ p.length, by simp⟩

lemma dropLast_mem_ancestorsAndSelf (pp : NodePath) (i : Nat) :
    pp ∈ ancestorsAndSelf (pp ++ [i]) := by
  unfold ancestorsAndSelf
  refine List.mem_map.mpr ⟨pp.length, ?_, ?_⟩
  · simp [List.mem_range]
    omega
  · exact List.take_left pp [i]

@[simp] lemma dropLast_concat_nodePath (l : NodePath) (i : Nat) :
    (l ++ [i]).dropLast = l := by
  simp

@[simp] lemma lastIdxOf_concat (l : NodePath) (i : Nat) :
    lastIdxOf (l ++ [i]) = i := by
  simp [lastIdxOf]

/-- Core inverse law of the position graph: from a good position, one step of
`nextVisiblePosition` followed by `previousVisiblePosition` comes back
exactly. -/
lemma prevVisible_nextVisible (d : DomNode) (p q : Pos)
    (hg : goodPos d p = true)
    (hnv : nextVisiblePosition d p = some q) :
    previousVisiblePosition d q = some p := by
  obtain ⟨pth, off⟩ := p
  unfold goodPos at hg
  cases hnode : nodeAt d pth with
  | none => simp only [hnode] at hg; exact absurd hg (by simp)
  | some n =>
  simp only [hnode, Bool.and_eq_true, decide_eq_true_eq, List.all_eq_true,
    Bool.not_eq_true'] at hg
  obtain ⟨⟨hcp, hoff⟩, hanc⟩ := hg
  have hselfnc : isCollapsedNode d pth = false :=
    hanc _ (self_mem_ancestorsAndSelf _)
  simp only [nextVisiblePosition, nextPosition, hnode] at hnv
  by_cases hlen : off = getNodeLength n
  · -- moving onto the next node: exit to the parent position
    rw [if_pos hlen] at hnv
    rcases List.eq_nil_or_concat pth with hnil | ⟨pp, i, hpath⟩
    · rw [hnil] at hnv; simp at hnv
    · rw [List.concat_eq_append] at hpath
      subst hpath
      rw [if_neg (by simp)] at hnv
      simp only [dropLast_concat_nodePath, lastIdxOf_concat] at hnv
      obtain ⟨par, hpar, hchild⟩ :
          ∃ par, nodeAt d pp = some par ∧ par.childrenOf.get? i = some n := by
        have := hnode
        rw [nodeAt_concat] at this
        exact Option.bind_eq_some.mp this
      have hppnc : isCollapsedNode d pp = false :=
        hanc pp (dropLast_mem_ancestorsAndSelf pp i)
      rw [hppnc] at hnv
      simp only [Bool.false_eq_true, if_false, Option.some.injEq] at hnv
      subst hnv
      have hcdpar : isCharacterDataNode par = false :=
        not_charData_of_child par n i hchild
      have hpp : previousPosition d ⟨pp, i + 1⟩ = some ⟨pp ++ [i], getNodeLength n⟩ := by
        simp only [previousPosition, hpar, Nat.add_sub_cancel, hcdpar, hchild,
          Bool.false_eq_true, if_false, hcp, if_true]
        rw [if_neg (by simp)]
      simp only [previousVisiblePosition, hpp, hselfnc, Bool.false_eq_true,
        if_false, hlen]
  · -- moving within the node
    rw [if_neg hlen] at hnv
    have hofflt : off < getNodeLength n := lt_of_le_of_ne hoff hlen
    by_cases hcd : isCharacterDataNode n
    · rw [if_pos hcd] at hnv
      dsimp only at hnv
      rw [hselfnc] at hnv
      simp only [Bool.false_eq_true, if_false, Option.some.injEq] at hnv
      subst hnv
      have hpp : previousPosition d ⟨pth, off + 1⟩ = some ⟨pth, off⟩ := by
        simp only [previousPosition, hnode, hcd, if_true, Nat.add_sub_cancel]
        rw [if_neg (by simp)]
      simp only [previousVisiblePosition, hpp, hselfnc, Bool.false_eq_true,
        if_false]
    · rw [if_neg hcd] at hnv
      -- the node is an element with a child at the offset
      obtain ⟨t, st, cs, hn⟩ : ∃ t st cs, n = .element t st cs := by
        cases n with
        | element t st cs => exact ⟨t, st, cs, rfl⟩
        | text s => simp [isCharacterDataNode] at hcd
        | comment s => simp [isCharacterDataNode] at hcd
        | pi s => simp [getNodeLength] at hofflt
      subst hn
      obtain ⟨c, hc⟩ : ∃ c, cs.get? off = some c := by
        have : off < cs.length := by simpa [getNodeLength] using hofflt
        exact ⟨cs.get ⟨off, this⟩, List.get?_eq_get this⟩
      rw [childrenOf_element] at hnv
      rw [hc] at hnv
      dsimp only at hnv
      have hchildAt : nodeAt d (pth ++ [off]) = some c := by
        rw [nodeAt_concat, hnode]
        simpa using hc
      by_cases hcpc : containsPositions c
      · rw [if_pos hcpc] at hnv
        dsimp only at hnv
        by_cases hcoll : isCollapsedNode d (pth ++ [off])
        · rw [hcoll] at hnv
          rw [if_pos rfl] at hnv
          rw [if_neg (by simp)] at hnv
          simp only [dropLast_concat_nodePath, lastIdxOf_concat,
            Option.some.injEq] at hnv
          subst hnv
          have hpp : previousPosition d ⟨pth, off + 1⟩ =
              some ⟨pth ++ [off], getNodeLength c⟩ := by
            simp only [previousPosition, hnode, hcd, Bool.false_eq_true,
              if_false, childrenOf_element, Nat.add_sub_cancel, hc, hcpc,
              if_true]
            rw [if_neg (by simp)]
          simp only [previousVisiblePosition, hpp, hcoll, if_true]
          rw [if_neg (by simp)]
          simp
        · simp only [Bool.not_eq_true] at hcoll
          rw [hcoll] at hnv
          simp only [Bool.false_eq_true, if_false, Option.some.injEq] at hnv
          subst hnv
          have hpp : previousPosition d ⟨pth ++ [off], 0⟩ = some ⟨pth, off⟩ := by
            simp [previousPosition, hchildAt]
          simp only [previousVisiblePosition, hpp, hselfnc, Bool.false_eq_true,
            if_false]
      · rw [if_neg hcpc] at hnv
        dsimp only at hnv
        rw [hselfnc] at hnv
        simp only [Bool.false_eq_true, if_false, Option.some.injEq] at hnv
        subst hnv
        have hpp : previousPosition d ⟨pth, off + 1⟩ = some ⟨pth, off⟩ := by
          simp only [previousPosition, hnode, hcd, Bool.false_eq_true,
            if_false, childrenOf_element, Nat.add_sub_cancel, hc]
          rw [if_neg (by simp)]
          rw [if_neg (by simpa using hcpc)]
        simp only [previousVisiblePosition, hpp, hselfnc, Bool.false_eq_true,
          if_false]

/-! ## Claim theorems -/

/-- C5: for the text `"a  b"` inside a normal-whitespace container, `text()`
over the whole container's contents returns `"a b"`: the first space of the
run materializes as a single space and the second as the empty string. -/
theorem claim_C5 :
    rangeText docC5 ⟨⟨[], 0⟩, ⟨[], 1⟩⟩ defaultCharacterOptions = "a b" ∧
    (getCharacterAt docC5 defaultCharacterOptions ⟨[0], 2⟩).character = some ' ' ∧
    (getCharacterAt docC5 defaultCharacterOptions ⟨[0], 3⟩).character = none := by
  decide

/-- C4, counterexample: for the position `p = (text "x", 1)` inside a span
inside a hidden div, `nextVisiblePosition` skips only one level of the
collapsed nesting, and the composed forward-then-backward movement lands at
`(hidden div, 0)` - a position that is neither `p` nor any visible position
at all (its node is collapsed), so it is not the nearest visible position
`≤ p` either. -/
theorem claim_C4_counterexample :
    (nextVisiblePosition docC4bad ⟨[0, 0, 0], 1⟩).bind
        (previousVisiblePosition docC4bad) = some ⟨[0], 0⟩ ∧
    (⟨[0], 0⟩ : Pos) ≠ (⟨[0, 0, 0], 1⟩ : Pos) ∧
    isCollapsedNode docC4bad [0] = true := by
  decide

/-- C4 (amended): for every position `p` whose node can contain positions,
whose offset is in range, and that does not lie inside any collapsed node
(no ancestor-or-self of its node is collapsed), when `nextVisiblePosition(p)`
is non-null, `previousVisiblePosition(nextVisiblePosition(p))` equals `p`
exactly, so no visible position is skipped. -/
theorem claim_C4 (d : DomNode) (p q : Pos) (hg : goodPos d p = true)
    (hnv : nextVisiblePosition d p = some q) :
    previousVisiblePosition d q = some p :=
  prevVisible_nextVisible d p q hg hnv

theorem claim_C4_witness :
    previousVisiblePosition docDivAb ⟨[0], 2⟩ = some ⟨[0], 1⟩ :=
  claim_C4 docDivAb ⟨[0], 1⟩ ⟨[0], 2⟩ (by decide) (by decide)

/-- C7, counterexample: after a successful `next()`, calling `rewind()` twice
in a row does not fail - the second `rewind()` succeeds and leaves the state
unchanged, contrary to the claim that it fails with a reported error. -/
theorem claim_C7_counterexample :
    c7step1.1.isSome = true ∧
    charIterRewind c7it1 = .ok c7it2 ∧
    charIterRewind c7it2 = .ok c7it2 :=
  ⟨rfl, rfl, rfl⟩

/-- C7 (amended): after a successful `next()` returning `c`, `rewind()`
succeeds and the following `next()` re-delivers `c` exactly once, restoring
the pre-rewind state; `rewind()` twice in a row is idempotent (the second
call succeeds and changes nothing); and `rewind()` with no prior `next()`
result - in particular on a freshly created iterator - raises an error to
the caller. -/
theorem claim_C7 (d : DomNode) (opts : CharacterOptions) (it : CharIterator)
    (c : TextPos) (hprev : it.previousTextPos = some c)
    (hflag : it.returnPreviousTextPos = false) :
    charIterRewind it = .ok { it with returnPreviousTextPos := true } ∧
    charIterNext d opts { it with returnPreviousTextPos := true } = (some c, it) ∧
    charIterRewind { it with returnPreviousTextPos := true } =
      .ok { it with returnPreviousTextPos := true } ∧
    (∀ it0 : CharIterator, it0.previousTextPos = none →
      charIterRewind it0 =
        .error "createCharacterIterator: cannot rewind. Only one position can be rewound.") ∧
    (∀ (d0 : DomNode) (sp : Pos) (b : Bool) (ep : Option Pos),
      (createCharacterIterator d0 sp b ep).previousTextPos = none) := by
  obtain ⟨po, fin, bk, ep, prev, flag⟩ := it
  simp only at hprev hflag
  subst hprev hflag
  refine ⟨?_, ?_, ?_, ?_, ?_⟩
  · simp [charIterRewind]
  · simp [charIterNext]
  · simp [charIterRewind]
  · intro it0 h0
    simp [charIterRewind, h0]
  · intro d0 sp b ep0
    simp [createCharacterIterator]

theorem claim_C7_witness :
    charIterRewind c7it1 = .ok { c7it1 with returnPreviousTextPos := true } ∧
    charIterNext docDivAb defaultCharacterOptions
        { c7it1 with returnPreviousTextPos := true } =
      (some (getCharacterAt docDivAb defaultCharacterOptions ⟨[0], 1⟩), c7it1) ∧
    charIterRewind { c7it1 with returnPreviousTextPos := true } =
      .ok { c7it1 with returnPreviousTextPos := true } ∧
    (∀ it0 : CharIterator, it0.previousTextPos = none →
      charIterRewind it0 =
        .error "createCharacterIterator: cannot rewind. Only one position can be rewound.") ∧
    (∀ (d0 : DomNode) (sp : Pos) (b : Bool) (ep : Option Pos),
      (createCharacterIterator d0 sp b ep).previousTextPos = none) :=
  claim_C7 docDivAb defaultCharacterOptions c7it1
    (getCharacterAt docDivAb defaultCharacterOptions ⟨[0], 1⟩)
    (by decide) (by decide)

/-- C8, counterexample: `movePositionBy` with the unrecognized unit `"foo"`
and count 0 raises no error at all - it returns the unmoved position - so
the error is not raised "for every count value". -/
theorem claim_C8_counterexample :
    movePositionBy docDivAb ⟨[], 0⟩ "foo" 0 defaultCharacterOptions
      defaultWordOptions = .ok ⟨⟨[], 0⟩, 0⟩ := by
  rfl

/-- C8 (amended): for every call to `movePositionBy` with a unit that is
neither `"character"` nor `"word"` and a nonzero count, an error is raised
immediately and propagates through `moveStart`/`moveEnd`/`move` (all built
on `rangeMoveBoundary`); with count 0 the call returns without moving and
without error; and `expand` with an unrecognized unit does not error but
falls back to `moveEnd("character", 1)`. -/
theorem claim_C8 (d : DomNode) (pos : Pos) (unit : String) (count : Int)
    (copts : CharacterOptions) (wopts : WordOptions) (r : TxRange)
    (isStart collapse : Bool)
    (h1 : unit ≠ "character") (h2 : unit ≠ "word") :
    (count ≠ 0 →
      movePositionBy d pos unit count copts wopts =
        .error ("movePositionBy: unit '" ++ unit ++ "' not implemented") ∧
      rangeMoveBoundary d isStart collapse r unit count copts wopts =
        .error ("movePositionBy: unit '" ++ unit ++ "' not implemented")) ∧
    movePositionBy d pos unit 0 copts wopts = .ok ⟨pos, 0⟩ ∧
    rangeExpand d r unit copts wopts defaultExpandOptions =
      (match rangeMoveEnd d r "character" 1 copts wopts with
       | .ok (units, r') => .ok (decide (units ≠ 0), r')
       | .error e => .error e) := by
  refine ⟨fun hc => ?_, ?_, ?_⟩
  · have herr : ∀ p' : Pos, movePositionBy d p' unit count copts wopts =
        .error ("movePositionBy: unit '" ++ unit ++ "' not implemented") := by
      intro p'
      unfold movePositionBy
      rw [if_neg hc]
      dsimp only
      rw [if_neg h1, if_neg h2]
    refine ⟨herr pos, ?_⟩
    unfold rangeMoveBoundary
    dsimp only
    simp only [herr]
  · unfold movePositionBy
    rw [if_pos rfl]
  · unfold rangeExpand
    rw [if_neg h2]

theorem claim_C8_witness :
    (movePositionBy docDivAb ⟨[], 0⟩ "foo" 3 defaultCharacterOptions
        defaultWordOptions =
      .error ("movePositionBy: unit '" ++ "foo" ++ "' not implemented") ∧
    rangeMoveBoundary docDivAb true false ⟨⟨[], 0⟩, ⟨[], 0⟩⟩ "foo" 3
        defaultCharacterOptions defaultWordOptions =
      .error ("movePositionBy: unit '" ++ "foo" ++ "' not implemented")) ∧
    movePositionBy docDivAb ⟨[], 0⟩ "foo" 0 defaultCharacterOptions
        defaultWordOptions = .ok ⟨⟨[], 0⟩, 0⟩ ∧
    rangeExpand docDivAb ⟨⟨[], 0⟩, ⟨[], 0⟩⟩ "foo" defaultCharacterOptions
        defaultWordOptions defaultExpandOptions =
      (match rangeMoveEnd docDivAb ⟨⟨[], 0⟩, ⟨[], 0⟩⟩ "character" 1
          defaultCharacterOptions defaultWordOptions with
       | .ok (units, r') => .ok (decide (units ≠ 0), r')
       | .error e => .error e) := by
  have h := claim_C8 docDivAb ⟨[], 0⟩ "foo" 3 defaultCharacterOptions
    defaultWordOptions ⟨⟨[], 0⟩, ⟨[], 0⟩⟩ true false
    (by decide) (by decide)
  exact ⟨h.1 (by decide), h.2.1, h.2.2⟩

/-- A positive `isWholeWord` verdict means the word expansion of exactly
that range reports that it moved neither boundary. -/
lemma isWholeWord_expand (d : DomNode) (s e : Pos)
    (h : isWholeWord d s e = .ok true) :
    ∃ r', rangeExpand d ⟨s, e⟩ "word" defaultCharacterOptions
      defaultWordOptions defaultExpandOptions = .ok (false, r') := by
  unfold isWholeWord at h
  cases hx : rangeExpand d ⟨s, e⟩ "word" defaultCharacterOptions
      defaultWordOptions defaultExpandOptions with
  | error e0 => rw [hx] at h; exact absurd h (by simp)
  | ok p =>
    obtain ⟨moved, r'⟩ := p
    rw [hx] at h
    simp only [Except.ok.injEq] at h
    cases moved with
    | true => simp at h
    | false => exact ⟨r', rfl⟩

/-- A valid result from `handleMatch` under the whole-word constraint means
`isWholeWord` accepted exactly the result's boundaries. -/
lemma handleMatch_valid (d : DomNode) (fo : FindOptions) (chars : List TextPos)
    (si ei : Nat) (res : FindResultR) (hw : fo.wholeWordsOnly = true)
    (h : handleMatch d fo chars si ei = .ok res) (hv : res.valid = true) :
    isWholeWord d res.startPos res.endPos = .ok true := by
  unfold handleMatch at h
  cases hg1 : chars.get? si with
  | none => simp only [hg1] at h; exact absurd h (by simp)
  | some s0 =>
  simp only [hg1] at h
  cases hg2 : previousVisiblePosition d s0.position with
  | none => simp only [hg2] at h; exact absurd h (by simp)
  | some startP =>
  simp only [hg2] at h
  cases hg3 : chars.get? (ei - 1) with
  | none => simp only [hg3] at h; exact absurd h (by simp)
  | some e0 =>
  simp only [hg3, hw, if_true] at h
  cases hg4 : isWholeWord d startP e0.position with
  | error e1 => simp only [hg4] at h; exact absurd h (by simp)
  | ok valid =>
  simp only [hg4, Except.ok.injEq] at h
  subst h
  simp only at hv
  rw [hv] at hg4
  exact hg4

/-- Every successful match of `findTextFromPosition` came from
`handleMatch`. -/
lemma findTextFromPosition_result (d : DomNode) (startAt : Pos)
    (term : SearchTerm) (scope : TxRange) (fo : FindOptions) (res : FindResultR)
    (h : findTextFromPosition d startAt term scope fo = .ok (some res)) :
    ∃ ch si ei, handleMatch d fo ch si ei = .ok res := by
  unfold findTextFromPosition at h
  dsimp only at h
  generalize hS :
    (if fo.backward = true then
      charStreamBwd d findCharacterOptions startAt (some scope.startPos)
    else charStreamFwd d findCharacterOptions startAt (some scope.endPos)) =
      stream at h
  split at h
  · exact absurd h (by simp)
  · exact absurd h (by simp)
  · next ch si ei hscan =>
    cases hhm : handleMatch d fo ch si ei with
    | error e0 => rw [hhm] at h; exact absurd h (by simp [Except.map])
    | ok r0 =>
      rw [hhm] at h
      simp only [Except.map, Except.ok.injEq, Option.some.injEq] at h
      exact ⟨ch, si, ei, by rw [hhm, h]⟩

/-- Every range returned by the `findText` retry loop carries a valid result
produced by `handleMatch`. -/
lemma findTextGo_result (d : DomNode) (term : SearchTerm) (fo : FindOptions) :
    ∀ (fuel : Nat) (scope : TxRange) (ip pos : Pos) (wrapped : Bool)
      (rng : TxRange),
      findTextGo d term fo fuel scope ip pos wrapped = .ok (some rng) →
      ∃ res : FindResultR, res.valid = true ∧
        rng = ⟨res.startPos, res.endPos⟩ ∧
        ∃ ch si ei, handleMatch d fo ch si ei = .ok res := by
  intro fuel
  induction fuel with
  | zero => intro scope ip pos wrapped rng h; exact absurd h (by simp [findTextGo])
  | succ n ih =>
    intro scope ip pos wrapped rng h
    unfold findTextGo at h
    cases hfr : findTextFromPosition d pos term scope fo with
    | error e => simp only [hfr] at h; exact absurd h (by simp)
    | ok o =>
      cases o with
      | none =>
        simp only [hfr] at h
        by_cases hwrap : (fo.wrap && !wrapped) = true
        · rw [if_pos hwrap] at h
          by_cases hb : fo.backward = true
          · rw [if_pos hb] at h; exact ih _ _ _ _ _ h
          · rw [if_neg hb] at h; exact ih _ _ _ _ _ h
        · rw [if_neg hwrap] at h; exact absurd h (by simp)
      | some res =>
        simp only [hfr] at h
        by_cases hvalid : res.valid = true
        · rw [if_pos hvalid] at h
          simp only [Except.ok.injEq, Option.some.injEq] at h
          exact ⟨res, hvalid, h.symm,
            findTextFromPosition_result d pos term scope fo res hfr⟩
        · rw [if_neg hvalid] at h
          exact ih _ _ _ _ _ h

/-- C2: whole-word search only ever returns word-aligned ranges.  First
conjunct: whenever `findText` with `wholeWordsOnly` returns true, applying
`expand("word")` (with the default options, exactly as `isWholeWord` does)
to the range it set moves neither boundary and leaves the range unchanged.
Second conjunct: a candidate match that fails the whole-word test is never
returned - the retry loop resumes searching from just past that match. -/
theorem claim_C2 (d : DomNode) (term : SearchTerm) (fo : FindOptions)
    (hw : fo.wholeWordsOnly = true) :
    (∀ (r rng : TxRange), findText d r term fo = .ok (some rng) →
      ∃ r', rangeExpand d rng "word" defaultCharacterOptions defaultWordOptions
        defaultExpandOptions = .ok (false, r')) ∧
    (∀ (fuel : Nat) (scope : TxRange) (ip pos : Pos) (wrapped : Bool)
      (res : FindResultR),
      findTextFromPosition d pos term scope fo = .ok (some res) →
      res.valid = false →
      findTextGo d term fo (fuel + 1) scope ip pos wrapped =
        findTextGo d term fo fuel scope ip
          (if fo.backward then res.startPos else res.endPos) wrapped) := by
  constructor
  · intro r rng h
    unfold findText at h
    dsimp only at h
    obtain ⟨res, hvalid, hrng, ch, si, ei, hhm⟩ :=
      findTextGo_result d _ fo _ _ _ _ _ _ h
    have hiw := handleMatch_valid d fo ch si ei res hw hhm hvalid
    obtain ⟨r', hr'⟩ := isWholeWord_expand d res.startPos res.endPos hiw
    rw [hrng]
    exact ⟨r', hr'⟩
  · intro fuel scope ip pos wrapped res hfr hinvalid
    conv_lhs => unfold findTextGo
    simp only [hfr]
    rw [if_neg (by rw [hinvalid]; exact Bool.false_ne_true)]

theorem claim_C2_witness :
    (⟨false, none, true, false, false⟩ : FindOptions).wholeWordsOnly = true ∧
    ((∀ (r rng : TxRange),
      findText docCatDog r (SearchTerm.str "cat")
        ⟨false, none, true, false, false⟩ = .ok (some rng) →
      ∃ r', rangeExpand docCatDog rng "word" defaultCharacterOptions
        defaultWordOptions defaultExpandOptions = .ok (false, r')) ∧
    (∀ (fuel : Nat) (scope : TxRange) (ip pos : Pos) (wrapped : Bool)
      (res : FindResultR),
      findTextFromPosition docCatDog pos (SearchTerm.str "cat") scope
        ⟨false, none, true, false, false⟩ = .ok (some res) →
      res.valid = false →
      findTextGo docCatDog (SearchTerm.str "cat")
        ⟨false, none, true, false, false⟩ (fuel + 1) scope ip pos wrapped =
        findTextGo docCatDog (SearchTerm.str "cat")
          ⟨false, none, true, false, false⟩ fuel scope ip
          (if (⟨false, none, true, false, false⟩ : FindOptions).backward then
            res.startPos else res.endPos) wrapped)) :=
  ⟨rfl, claim_C2 docCatDog (SearchTerm.str "cat")
    ⟨false, none, true, false, false⟩ rfl⟩

/-- C6: wrap semantics of the `findText` retry loop.  (a) When a pass over
the scope is exhausted with no match and wrapping is disabled or has already
happened (`wrap && !wrapped` false), the loop stops and reports no match.
(b) When a pass is exhausted with `wrap` enabled and no wrap yet, the search
is re-scoped to the remainder of the document - from the clamped initial
position round to itself - and retried with the `wrappedAround` flag set, so
by (a) a second wrap never occurs.  (c) Concretely, in `<div>cat dog</div>`
a search for "cat" started after its only occurrence succeeds with
`wrap: true` (finding characters 0-3 on the wrapped retry) and reports no
match with `wrap: false`. -/
theorem claim_C6 (d : DomNode) (term : SearchTerm) (fo : FindOptions) :
    (∀ (fuel : Nat) (scope : TxRange) (ip pos : Pos) (wrapped : Bool),
      findTextFromPosition d pos term scope fo = .ok none →
      (fo.wrap && !wrapped) = false →
      findTextGo d term fo (fuel + 1) scope ip pos wrapped = .ok none) ∧
    (∀ (fuel : Nat) (scope : TxRange) (ip pos : Pos),
      findTextFromPosition d pos term scope fo = .ok none →
      fo.wrap = true →
      findTextGo d term fo (fuel + 1) scope ip pos false =
        (if fo.backward then
          findTextGo d term fo fuel ⟨ip, scope.endPos⟩ ip scope.endPos true
        else
          findTextGo d term fo fuel ⟨scope.startPos, ip⟩ ip
            scope.startPos true)) ∧
    (findText docCatDog ⟨⟨[0], 4⟩, ⟨[0], 4⟩⟩ (SearchTerm.str "cat")
        ⟨true, none, false, true, false⟩ =
      .ok (some ⟨⟨[0], 0⟩, ⟨[0], 3⟩⟩) ∧
     findText docCatDog ⟨⟨[0], 4⟩, ⟨[0], 4⟩⟩ (SearchTerm.str "cat")
        ⟨true, none, false, false, false⟩ = .ok none) := by
  refine ⟨?_, ?_, by rfl, by rfl⟩
  · intro fuel scope ip pos wrapped hfr hnw
    unfold findTextGo
    simp only [hfr]
    rw [if_neg (by rw [hnw]; exact Bool.false_ne_true)]
  · intro fuel scope ip pos hfr hwrap
    conv_lhs => unfold findTextGo
    simp only [hfr]
    rw [if_pos (by simp [hwrap])]

theorem claim_C6_witness :
    (findTextFromPosition docCatDog ⟨[0], 4⟩ (SearchTerm.str "cat")
       ⟨⟨[0], 4⟩, ⟨[0], 7⟩⟩ ⟨true, none, false, true, false⟩ = .ok none ∧
     ((⟨true, none, false, true, false⟩ : FindOptions).wrap && !true)
       = false ∧
     (⟨true, none, false, true, false⟩ : FindOptions).wrap = true) ∧
    findTextGo docCatDog (SearchTerm.str "cat")
      ⟨true, none, false, true, false⟩ (3 + 1)
      ⟨⟨[0], 4⟩, ⟨[0], 7⟩⟩ ⟨[0], 4⟩ ⟨[0], 4⟩ true = .ok none ∧
    findTextGo docCatDog (SearchTerm.str "cat")
      ⟨true, none, false, true, false⟩ (3 + 1)
      ⟨⟨[0], 4⟩, ⟨[0], 7⟩⟩ ⟨[0], 4⟩ ⟨[0], 4⟩ false =
      (if (⟨true, none, false, true, false⟩ : FindOptions).backward then
        findTextGo docCatDog (SearchTerm.str "cat")
          ⟨true, none, false, true, false⟩ 3
          ⟨⟨[0], 4⟩, ⟨[0], 7⟩⟩ ⟨[0], 4⟩ ⟨[0], 7⟩ true
      else
        findTextGo docCatDog (SearchTerm.str "cat")
          ⟨true, none, false, true, false⟩ 3
          ⟨⟨[0], 4⟩, ⟨[0], 4⟩⟩ ⟨[0], 4⟩ ⟨[0], 4⟩ true) :=
  ⟨⟨rfl, rfl, rfl⟩,
   (claim_C6 docCatDog (SearchTerm.str "cat")
     ⟨true, none, false, true, false⟩).1 3 ⟨⟨[0], 4⟩, ⟨[0], 7⟩⟩
     ⟨[0], 4⟩ ⟨[0], 4⟩ true rfl rfl,
   (claim_C6 docCatDog (SearchTerm.str "cat")
     ⟨true, none, false, true, false⟩).2.1 3 ⟨⟨[0], 4⟩, ⟨[0], 7⟩⟩
     ⟨[0], 4⟩ ⟨[0], 4⟩ rfl rfl⟩

/-! ### Tokenizer partition lemmas (claim C3) -/

lemma takeWhileCount_le (p : Char → Bool) :
    ∀ l : List Char, takeWhileCount p l ≤ l.length := by
  intro l
  induction l with
  | nil => simp [takeWhileCount]
  | cons c rest ih =>
    simp only [takeWhileCount, List.length_cons]
    by_cases hp : p c = true
    · rw [if_pos hp]; omega
    · rw [if_neg hp]; omega

lemma apostropheGroupsLen_bound (s : List Char) :
    ∀ fuel j, apostropheGroupsLen s fuel j = 0 ∨
      j + apostropheGroupsLen s fuel j ≤ s.length := by
  intro fuel
  induction fuel with
  | zero => intro j; left; rfl
  | succ n ih =>
    intro j
    simp only [apostropheGroupsLen]
    by_cases hq : s.get? j = some '\''
    · rw [if_pos hq]
      by_cases hr : takeWhileCount isWordRegexChar (s.drop (j + 1)) = 0
      · rw [if_pos hr]; left; rfl
      · rw [if_neg hr]
        right
        have hjlt : j < s.length := by
          by_contra hc
          rw [List.get?_eq_none.mpr (by omega)] at hq
          exact absurd hq (by simp)
        have hrle := takeWhileCount_le isWordRegexChar (s.drop (j + 1))
        rw [List.length_drop] at hrle
        rcases ih (j + 1 + takeWhileCount isWordRegexChar (s.drop (j + 1))) with
          h0 | hle
        · rw [h0]; omega
        · omega
    · rw [if_neg hq]; left; rfl

lemma execDefaultFrom_spec (s : List Char) :
    ∀ fuel i j len, execDefaultFrom s fuel i = some (j, len) →
      i ≤ j ∧ 1 ≤ len ∧ j + len ≤ s.length := by
  intro fuel
  induction fuel with
  | zero => intro i j len h; exact absurd h (by simp [execDefaultFrom])
  | succ n ih =>
    intro i j len h
    simp only [execDefaultFrom] at h
    cases hg : s.get? i with
    | none => simp only [hg] at h; exact absurd h (by simp)
    | some c =>
      simp only [hg] at h
      by_cases hw : isWordRegexChar c = true
      · rw [if_pos hw] at h
        simp only [Option.some.injEq, Prod.mk.injEq] at h
        obtain ⟨hj, hlen⟩ := h
        subst hj
        subst hlen
        have hilt : i < s.length := by
          by_contra hc
          rw [List.get?_eq_none.mpr (by omega)] at hg
          exact absurd hg (by simp)
        have hdrop : s.drop i = c :: s.drop (i + 1) := by
          obtain ⟨hlt, hgv⟩ := List.get?_eq_some.mp hg
          rw [List.drop_eq_get_cons hlt, hgv]
        have hrun1 : 1 ≤ takeWhileCount isWordRegexChar (s.drop i) := by
          rw [hdrop]
          simp [takeWhileCount, hw]
        have hrunle : takeWhileCount isWordRegexChar (s.drop i) ≤ s.length - i := by
          have h2 := takeWhileCount_le isWordRegexChar (s.drop i)
          rwa [List.length_drop] at h2
        rcases apostropheGroupsLen_bound s s.length
            (i + takeWhileCount isWordRegexChar (s.drop i)) with h0 | hle
        · rw [h0]
          exact ⟨le_refl i, by omega, by omega⟩
        · exact ⟨le_refl i, by omega, by omega⟩
      · rw [if_neg hw] at h
        have h3 := ih (i + 1) j len h
        exact ⟨by omega, h3.2.1, h3.2.2⟩

lemma extendTrailingSpace_ge (arr : List (Option Char)) :
    ∀ fuel we, we ≤ extendTrailingSpace arr fuel we := by
  intro fuel
  induction fuel with
  | zero => intro we; simp [extendTrailingSpace]
  | succ n ih =>
    intro we
    rw [extendTrailingSpace]
    cases hg : arr.get? we with
    | none => simp only [hg]; omega
    | some oc =>
      cases oc with
      | none => simp only [hg]; omega
      | some c =>
        simp only [hg]
        by_cases hc : nonLineBreakWhiteSpaceChar c = true
        · rw [if_pos hc]
          have h2 := ih (we + 1)
          omega
        · rw [if_neg hc]

lemma extendTrailingSpace_le (arr : List (Option Char)) :
    ∀ fuel we, we ≤ arr.length →
      extendTrailingSpace arr fuel we ≤ arr.length := by
  intro fuel
  induction fuel with
  | zero => intro we h; simpa [extendTrailingSpace] using h
  | succ n ih =>
    intro we h
    rw [extendTrailingSpace]
    cases hg : arr.get? we with
    | none => simpa only [hg] using h
    | some oc =>
      cases oc with
      | none => simpa only [hg] using h
      | some c =>
        simp only [hg]
        have hwlt : we < arr.length := by
          by_contra hc
          rw [List.get?_eq_none.mpr (by omega)] at hg
          exact absurd hg (by simp)
        by_cases hc : nonLineBreakWhiteSpaceChar c = true
        · rw [if_pos hc]
          exact ih (we + 1) (by omega)
        · rw [if_neg hc]
          exact h

lemma extendTrailingSpace_region (arr : List (Option Char)) :
    ∀ fuel we k, we ≤ k → k < extendTrailingSpace arr fuel we →
      ∃ c, arr.get? k = some (some c) ∧ nonLineBreakWhiteSpaceChar c = true := by
  intro fuel
  induction fuel with
  | zero =>
    intro we k h1 h2
    rw [extendTrailingSpace] at h2
    omega
  | succ n ih =>
    intro we k h1 h2
    rw [extendTrailingSpace] at h2
    cases hg : arr.get? we with
    | none => simp only [hg] at h2; omega
    | some oc =>
      cases oc with
      | none => simp only [hg] at h2; omega
      | some c =>
        simp only [hg] at h2
        by_cases hc : nonLineBreakWhiteSpaceChar c = true
        · rw [if_pos hc] at h2
          by_cases hk : k = we
          · subst hk; exact ⟨c, hg, hc⟩
          · exact ih (we + 1) k (by omega) h2
        · rw [if_neg hc] at h2; omega

lemma filterMap_id_map_some {α} (l : List α) :
    (l.map some).filterMap id = l := by
  induction l with
  | nil => rfl
  | cons a l ih => simp [List.filterMap_cons, ih]

lemma coversFrom_nil (a b : Nat) (h : a = b) : coversFrom a b [] = true := by
  simp [coversFrom, h]

lemma coversFrom_cons (a b s e : Nat) (w : Bool) (ts : List Token)
    (h1 : s = a) (h2 : a ≤ e) (h3 : coversFrom e b ts = true) :
    coversFrom a b (⟨w, s, e⟩ :: ts) = true := by
  subst h1
  simp [coversFrom, h2, h3]

lemma coversFrom_le : ∀ (ts : List Token) (a b : Nat),
    coversFrom a b ts = true → a ≤ b := by
  intro ts
  induction ts with
  | nil =>
    intro a b h
    simp only [coversFrom, beq_iff_eq] at h
    omega
  | cons t ts ih =>
    intro a b h
    simp only [coversFrom, Bool.and_eq_true, beq_iff_eq, decide_eq_true_eq] at h
    exact le_trans h.1.2 (ih _ _ h.2)

lemma coversFrom_flatten {α} (l : List α) : ∀ (ts : List Token) (a b : Nat),
    coversFrom a b ts = true → b ≤ l.length →
    (ts.map (tokenSlice l)).flatten = (l.drop a).take (b - a) := by
  intro ts
  induction ts with
  | nil =>
    intro a b h hb
    simp only [coversFrom, beq_iff_eq] at h
    subst h
    simp
  | cons t ts ih =>
    intro a b h hb
    simp only [coversFrom, Bool.and_eq_true, beq_iff_eq, decide_eq_true_eq] at h
    obtain ⟨⟨hstart, hle⟩, hrest⟩ := h
    have hstop_le : t.stop ≤ b := coversFrom_le ts t.stop b hrest
    simp only [List.map_cons, List.flatten_cons]
    rw [ih t.stop b hrest hb]
    unfold tokenSlice
    rw [hstart]
    have hba : b - a = (t.stop - a) + (b - t.stop) := by omega
    rw [hba, List.take_add]
    have hdd : (l.drop a).drop (t.stop - a) = l.drop t.stop := by
      rw [List.drop_drop]
      congr 1
      omega
    rw [hdd]

lemma defaultTokenizerLoop_covers (chars : List Char) (wo : WordOptions)
    (hexec : ∀ i j len, wo.execFn (String.mk chars) i = some (j, len) →
      i ≤ j ∧ 1 ≤ len ∧ j + len ≤ chars.length)
    (hnostart : wo.includeTrailingSpace = true →
      ∀ i j len, wo.execFn (String.mk chars) i = some (j, len) →
      ∀ c, chars.get? j = some c → nonLineBreakWhiteSpaceChar c = false) :
    ∀ (fuel lastIndex lastWordEnd : Nat),
      lastIndex ≤ chars.length →
      lastWordEnd ≤ chars.length →
      (wo.includeTrailingSpace = false → lastWordEnd ≤ lastIndex) →
      (wo.includeTrailingSpace = true →
        ∀ k, lastIndex ≤ k → k < lastWordEnd →
        ∃ c, chars.get? k = some c ∧ nonLineBreakWhiteSpaceChar c = true) →
      chars.length + 1 ≤ fuel + lastIndex →
      coversFrom lastWordEnd chars.length
        (defaultTokenizerLoop (String.mk chars) (chars.map some) wo fuel
          lastIndex lastWordEnd) = true := by
  intro fuel
  induction fuel with
  | zero => intro lastIndex lastWordEnd hli hlwe h1 h2 hfuel; omega
  | succ n ih =>
    intro lastIndex lastWordEnd hli hlwe hinv1 hinv2 hfuel
    simp only [defaultTokenizerLoop]
    cases hex : wo.execFn (String.mk chars) lastIndex with
    | none =>
      simp only [hex]
      by_cases hlt : lastWordEnd < (chars.map some).length
      · rw [if_pos hlt]
        rw [List.length_map] at hlt
        rw [List.length_map]
        exact coversFrom_cons _ _ _ _ _ _ rfl (by omega) (coversFrom_nil _ _ rfl)
      · rw [if_neg hlt]
        rw [List.length_map] at hlt
        exact coversFrom_nil _ _ (by omega)
    | some pr =>
      obtain ⟨ws, len⟩ := pr
      simp only [hex]
      obtain ⟨hij, hlen1, hend⟩ := hexec lastIndex ws len hex
      have hwsge : lastWordEnd ≤ ws := by
        cases hits : wo.includeTrailingSpace with
        | false => exact le_trans (hinv1 hits) hij
        | true =>
          by_contra hc
          push_neg at hc
          obtain ⟨c, hgc, hwc⟩ := hinv2 hits ws hij hc
          have h4 := hnostart hits lastIndex ws len hex c hgc
          rw [h4] at hwc
          exact absurd hwc (by simp)
      cases hits : wo.includeTrailingSpace with
      | false =>
        simp only [hits, Bool.false_eq_true, if_false]
        have hrec := ih (ws + len) (ws + len) hend hend
          (fun _ => le_refl _)
          (fun hits' => by rw [hits] at hits'; exact absurd hits' (by simp))
          (by omega)
        by_cases hpre : lastWordEnd < ws
        · rw [if_pos hpre]
          simp only [List.cons_append, List.nil_append]
          exact coversFrom_cons _ _ _ _ _ _ rfl (by omega)
            (coversFrom_cons _ _ _ _ _ _ rfl (by omega) hrec)
        · rw [if_neg hpre]
          have heq : lastWordEnd = ws := by omega
          simp only [List.nil_append]
          exact coversFrom_cons _ _ _ _ _ _ heq.symm (by omega) hrec
      | true =>
        simp only [hits, if_true]
        have hgeE : ws + len ≤
            extendTrailingSpace (chars.map some)
              ((chars.map some).length + 1) (ws + len) :=
          extendTrailingSpace_ge (chars.map some) _ (ws + len)
        have hleE : extendTrailingSpace (chars.map some)
            ((chars.map some).length + 1) (ws + len) ≤ chars.length := by
          have hlm : (chars.map some).length = chars.length := by
            rw [List.length_map]
          have h5 := extendTrailingSpace_le (chars.map some)
            ((chars.map some).length + 1) (ws + len) (by omega)
          omega
        have hreg : ∀ k, ws + len ≤ k →
            k < extendTrailingSpace (chars.map some)
              ((chars.map some).length + 1) (ws + len) →
            ∃ c, chars.get? k = some c ∧ nonLineBreakWhiteSpaceChar c = true := by
          intro k h1 h2
          obtain ⟨c, hgc, hwc⟩ :=
            extendTrailingSpace_region (chars.map some) _ (ws + len) k h1 h2
          rw [List.get?_map] at hgc
          cases hck : chars.get? k with
          | none => rw [hck] at hgc; exact absurd hgc (by simp)
          | some c' =>
            rw [hck] at hgc
            have hcc : c' = c := by simpa using hgc
            refine ⟨c', rfl, ?_⟩
            rw [hcc]
            exact hwc
        have hrec := ih (ws + len)
          (extendTrailingSpace (chars.map some)
            ((chars.map some).length + 1) (ws + len))
          hend hleE
          (fun hits' => by rw [hits] at hits'; exact absurd hits' (by simp))
          (fun _ => hreg)
          (by omega)
        by_cases hpre : lastWordEnd < ws
        · rw [if_pos hpre]
          simp only [List.cons_append, List.nil_append]
          exact coversFrom_cons _ _ _ _ _ _ rfl (by omega)
            (coversFrom_cons _ _ _ _ _ _ rfl (by omega) hrec)
        · rw [if_neg hpre]
          have heq : lastWordEnd = ws := by omega
          simp only [List.nil_append]
          exact coversFrom_cons _ _ _ _ _ _ heq.symm (by omega) hrec

/-- The original C3 is false: with the word regex `/[x ]/g` and
`includeTrailingSpace`, tokenizing the characters of `"x y"` yields
overlapping tokens `[0,2)`, `[1,2)`, `[2,3)` whose concatenated slices spell
`"x  y"`, not the input. -/
theorem claim_C3_counterexample :
    defaultTokenizer [some 'x', some ' ', some 'y'] ⟨execXorSpace, true⟩ =
      [⟨true, 0, 2⟩, ⟨true, 1, 2⟩, ⟨false, 2, 3⟩] ∧
    ((defaultTokenizer [some 'x', some ' ', some 'y'] ⟨execXorSpace, true⟩).map
      (tokenSlice [some 'x', some ' ', some 'y'])).flatten ≠
      [some 'x', some ' ', some 'y'] ∧
    coversFrom 0 3
      (defaultTokenizer [some 'x', some ' ', some 'y'] ⟨execXorSpace, true⟩) =
      false := by
  decide

/-- C3 (amended): over a run of materialized characters, the default
tokenizer's tokens are consecutive intervals covering the whole run (a
partition: no gap, no overlap, concatenation reproduces the input), provided
the word-regex `exec` behaves like a real global regex - each match is
nonempty, lies within the string, starts at or after `lastIndex` - and, when
`includeTrailingSpace` is set, no match starts on a non-line-break
whitespace character.  The counterexample shows the claim's "any word
options" is too strong: a regex matching a space plus `includeTrailingSpace`
makes tokens overlap. -/
theorem claim_C3 (chars : List Char) (wo : WordOptions)
    (hexec : ∀ i j len, wo.execFn (String.mk chars) i = some (j, len) →
      i ≤ j ∧ 1 ≤ len ∧ j + len ≤ chars.length)
    (hnostart : wo.includeTrailingSpace = true →
      ∀ i j len, wo.execFn (String.mk chars) i = some (j, len) →
      ∀ c, chars.get? j = some c → nonLineBreakWhiteSpaceChar c = false) :
    coversFrom 0 chars.length (defaultTokenizer (chars.map some) wo) = true ∧
    ((defaultTokenizer (chars.map some) wo).map
      (tokenSlice (chars.map some))).flatten = chars.map some := by
  have hword : (chars.map some).filterMap id = chars := filterMap_id_map_some chars
  have hcov : coversFrom 0 chars.length
      (defaultTokenizer (chars.map some) wo) = true := by
    unfold defaultTokenizer
    dsimp only
    rw [hword]
    exact defaultTokenizerLoop_covers chars wo hexec hnostart
      ((String.mk chars).length + 1) 0 0 (by omega) (by omega)
      (fun _ => le_refl 0) (fun _ k h1 h2 => by omega) (by
        have : (String.mk chars).length = chars.length := rfl
        omega)
  refine ⟨hcov, ?_⟩
  have hfl := coversFrom_flatten (chars.map some)
    (defaultTokenizer (chars.map some) wo) 0 chars.length hcov
    (by rw [List.length_map])
  have hlen2 : chars.length = (List.map some chars).length := by
    rw [List.length_map]
  rw [hfl, List.drop_zero, Nat.sub_zero, hlen2, List.take_length]

theorem claim_C3_witness :
    (∀ i j len, defaultWordOptions.execFn
        (String.mk ['c', 'a', 't', ' ', 'd', 'o', 'g']) i = some (j, len) →
      i ≤ j ∧ 1 ≤ len ∧
        j + len ≤ (['c', 'a', 't', ' ', 'd', 'o', 'g'] : List Char).length) ∧
    (coversFrom 0 (['c', 'a', 't', ' ', 'd', 'o', 'g'] : List Char).length
      (defaultTokenizer
        ((['c', 'a', 't', ' ', 'd', 'o', 'g'] : List Char).map some)
        defaultWordOptions) = true ∧
     ((defaultTokenizer
        ((['c', 'a', 't', ' ', 'd', 'o', 'g'] : List Char).map some)
        defaultWordOptions).map
       (tokenSlice
         ((['c', 'a', 't', ' ', 'd', 'o', 'g'] : List Char).map some))).flatten =
       (['c', 'a', 't', ' ', 'd', 'o', 'g'] : List Char).map some) :=
  ⟨fun i j len h => execDefaultFrom_spec _ _ i j len h,
   claim_C3 ['c', 'a', 't', ' ', 'd', 'o', 'g'] defaultWordOptions
     (fun i j len h => execDefaultFrom_spec _ _ i j len h)
     (fun hits => absurd hits (by simp [defaultWordOptions]))⟩

/-! ### The character walk over a visible text container (claim C1) -/

lemma sne_data {s : String} (hne : s ≠ "") : s.data ≠ [] := by
  intro h
  apply hne
  cases s with
  | mk data => subst h; rfl

lemma spacesRegexChar_white (c : Char) (h : spacesRegexChar c = true) :
    allWhiteSpaceChar c = true := by
  simp only [spacesRegexChar, Bool.or_eq_true, decide_eq_true_eq] at h
  rcases h with (((h | h) | h) | h) | h <;> subst h <;> decide

lemma isWsCharTNRS_white (c : Char) (h : isWsCharTNRS c = true) :
    allWhiteSpaceChar c = true := by
  simp only [isWsCharTNRS, Bool.or_eq_true, decide_eq_true_eq] at h
  rcases h with ((h | h) | h) | h <;> subst h <;> decide

lemma isWhitespaceNode_divText (s : String) (hne : s ≠ "")
    (hws : ∀ c ∈ s.data, allWhiteSpaceChar c = false) :
    isWhitespaceNode (divTextDoc s) [0] = false := by
  have hd := sne_data hne
  have hall : s.data.all isWsCharTNRS = false := by
    cases hdata : s.data with
    | nil => exact absurd hdata hd
    | cons c rest =>
      have hc : allWhiteSpaceChar c = false :=
        hws c (by rw [hdata]; exact List.mem_cons_self c rest)
      simp only [List.all_cons, Bool.and_eq_false_iff]
      left
      cases hcc : isWsCharTNRS c with
      | false => rfl
      | true => rw [isWsCharTNRS_white c hcc] at hc; exact absurd hc (by simp)
  unfold isWhitespaceNode
  simp only [show nodeAt (divTextDoc s) [0] = some (DomNode.text s) from rfl]
  rw [if_neg hne]
  simp [hall, divTextDoc, styleBlock]

lemma isCollapsedNode_divText_root (s : String) :
    isCollapsedNode (divTextDoc s) [] = false := rfl

lemma isCollapsedNode_divText_text (s : String) (hne : s ≠ "")
    (hws : ∀ c ∈ s.data, allWhiteSpaceChar c = false) :
    isCollapsedNode (divTextDoc s) [0] = false := by
  unfold isCollapsedNode
  simp only [show nodeAt (divTextDoc s) [0] = some (DomNode.text s) from rfl]
  have hh : isHidden (divTextDoc s) [0] = false := rfl
  have hv : isVisibilityHiddenTextNode (divTextDoc s) [0] = false := rfl
  have hcw : isCollapsedWhitespaceNode (divTextDoc s) [0] = false := by
    unfold isCollapsedWhitespaceNode
    simp only [show nodeAt (divTextDoc s) [0] = some (DomNode.text s) from rfl]
    have hds : (DomNode.text s).dataOf = some s := rfl
    rw [hds]
    rw [if_neg (by simpa using hne)]
    rw [isWhitespaceNode_divText s hne hws]
    rfl
  rw [hh, hv, hcw]
  rfl

lemma nextVisiblePosition_divText_root0 (s : String) (hne : s ≠ "")
    (hws : ∀ c ∈ s.data, allWhiteSpaceChar c = false) :
    nextVisiblePosition (divTextDoc s) ⟨[], 0⟩ = some ⟨[0], 0⟩ := by
  unfold nextVisiblePosition
  simp only [show nextPosition (divTextDoc s) ⟨[], 0⟩ = some ⟨[0], 0⟩ from rfl]
  simp [isCollapsedNode_divText_text s hne hws]

lemma nextVisiblePosition_divText_mid (s : String) (hne : s ≠ "")
    (hws : ∀ c ∈ s.data, allWhiteSpaceChar c = false) (k : Nat)
    (hk : k ≠ s.length) :
    nextVisiblePosition (divTextDoc s) ⟨[0], k⟩ = some ⟨[0], k + 1⟩ := by
  have hnp : nextPosition (divTextDoc s) ⟨[0], k⟩ = some ⟨[0], k + 1⟩ := by
    unfold nextPosition
    simp only [show nodeAt (divTextDoc s) [0] = some (DomNode.text s) from rfl]
    rw [if_neg (by simpa [getNodeLength] using hk)]
    rfl
  unfold nextVisiblePosition
  simp only [hnp]
  simp [isCollapsedNode_divText_text s hne hws]

lemma nextVisiblePosition_divText_end (s : String) :
    nextVisiblePosition (divTextDoc s) ⟨[0], s.length⟩ = some ⟨[], 1⟩ := by
  have hnp : nextPosition (divTextDoc s) ⟨[0], s.length⟩ = some ⟨[], 1⟩ := by
    unfold nextPosition
    simp only [show nodeAt (divTextDoc s) [0] = some (DomNode.text s) from rfl]
    rw [if_pos (by simp [getNodeLength])]
    rfl
  unfold nextVisiblePosition
  simp only [hnp]
  simp [isCollapsedNode_divText_root]

lemma nextVisiblePosition_divText_last (s : String) :
    nextVisiblePosition (divTextDoc s) ⟨[], 1⟩ = none := rfl

lemma visChainFwd_divText (s : String) (hne : s ≠ "")
    (hws : ∀ c ∈ s.data, allWhiteSpaceChar c = false) :
    ∀ (n k : Nat), k ≤ s.length → s.length - k + 2 ≤ n →
      visChainFwd (divTextDoc s) n ⟨[0], k⟩ =
        ((List.range' (k + 1) (s.length - k)).map fun m => (⟨[0], m⟩ : Pos)) ++
          [⟨[], 1⟩] := by
  intro n
  induction n with
  | zero => intro k hk hn; omega
  | succ n ih =>
    intro k hk hn
    by_cases hke : k = s.length
    · subst hke
      rw [visChainFwd]
      simp only [nextVisiblePosition_divText_end s]
      cases n with
      | zero => omega
      | succ m =>
        rw [visChainFwd]
        simp only [nextVisiblePosition_divText_last s]
        simp
    · have hklt : k < s.length := lt_of_le_of_ne hk hke
      rw [visChainFwd]
      simp only [nextVisiblePosition_divText_mid s hne hws k hke]
      rw [ih (k + 1) (by omega) (by omega)]
      have hsplit : s.length - k = (s.length - (k + 1)) + 1 := by omega
      rw [hsplit, List.range'_succ]
      simp

lemma visChainFwd_divText_root (s : String) (hne : s ≠ "")
    (hws : ∀ c ∈ s.data, allWhiteSpaceChar c = false) :
    ∀ n, s.length + 3 ≤ n →
      visChainFwd (divTextDoc s) n ⟨[], 0⟩ =
        ⟨[0], 0⟩ ::
          (((List.range' 1 s.length).map fun m => (⟨[0], m⟩ : Pos)) ++
            [⟨[], 1⟩]) := by
  intro n hn
  cases n with
  | zero => omega
  | succ m =>
    rw [visChainFwd]
    simp only [nextVisiblePosition_divText_root0 s hne hws]
    rw [visChainFwd_divText s hne hws m 0 (by omega) (by omega)]
    simp

lemma posCount_divText (s : String) : posCount (divTextDoc s) = s.length + 3 := by
  have h1 : posCount (divTextDoc s) =
      [DomNode.text s].length + 1 + posCountList [DomNode.text s] := rfl
  have h2 : posCountList [DomNode.text s] = s.length + 1 + 0 := rfl
  rw [h1, h2]
  simp
  omega

lemma getTextNodeProperties_divText (s : String) :
    getTextNodeProperties (divTextDoc s) [0] = ⟨true, false⟩ := rfl

lemma getCharacterAt_divText_mid (s : String)
    (hws : ∀ c ∈ s.data, allWhiteSpaceChar c = false)
    (copts : CharacterOptions) (k : Nat) (h1 : 1 ≤ k) (h2 : k ≤ s.length) :
    ∃ c, s.data.get? (k - 1) = some c ∧
      getCharacterAt (divTextDoc s) copts ⟨[0], k⟩ =
        ⟨some c, ⟨[0], k⟩, false, false, false, false⟩ := by
  have hlen : s.data.length = s.length := rfl
  obtain ⟨c, hc⟩ : ∃ c, s.data.get? (k - 1) = some c := by
    cases hg : s.data.get? (k - 1) with
    | none => rw [List.get?_eq_none] at hg; omega
    | some c => exact ⟨c, rfl⟩
  have hmem : c ∈ s.data := List.get?_mem hc
  have hcw : allWhiteSpaceChar c = false := hws c hmem
  have hsp : spacesRegexChar c = false := by
    cases hx : spacesRegexChar c with
    | false => rfl
    | true => rw [spacesRegexChar_white c hx] at hcw; exact absurd hcw (by simp)
  have hposs : getPossibleCharacterAt (divTextDoc s) ⟨[0], k⟩ =
      ⟨some c, ⟨[0], k⟩, false, false, false, false⟩ := by
    unfold getPossibleCharacterAt
    dsimp only
    rw [if_neg (by omega)]
    simp only [show nodeAt (divTextDoc s) [0] = some (DomNode.text s) from rfl]
    simp only [getTextNodeProperties_divText, hc]
    simp [TextNodeInfo.spaceRegexTest, hsp]
  refine ⟨c, hc, ?_⟩
  unfold getCharacterAt
  simp only [hposs]
  simp [hsp]

lemma getCharacterAt_divText_zero (s : String) (copts : CharacterOptions) :
    (getCharacterAt (divTextDoc s) copts ⟨[0], 0⟩).character = none := rfl

lemma getCharacterAt_divText_after (s : String) (copts : CharacterOptions) :
    (getCharacterAt (divTextDoc s) copts ⟨[], 1⟩).character = none := rfl

lemma takeUpThrough_posList :
    ∀ (n a j : Nat) (tail : List Pos), a ≤ j → j < a + n →
      takeUpThrough
        (((List.range' a n).map fun m => (⟨[0], m⟩ : Pos)) ++ tail)
        ⟨[0], j⟩ =
      (List.range' a (j - a + 1)).map fun m => (⟨[0], m⟩ : Pos) := by
  intro n
  induction n with
  | zero => intro a j tail h1 h2; omega
  | succ n ih =>
    intro a j tail h1 h2
    rw [List.range'_succ]
    simp only [List.map_cons, List.cons_append]
    rw [takeUpThrough]
    by_cases haj : a = j
    · subst haj
      rw [if_pos rfl]
      have : a - a + 1 = 1 := by omega
      rw [this, List.range'_one]
      simp
    · rw [if_neg (by simp [Pos.mk.injEq]; omega)]
      rw [ih (a + 1) j tail (by omega) (by omega)]
      have hsplit : j - a + 1 = (j - (a + 1) + 1) + 1 := by omega
      rw [hsplit]
      simp [List.range'_succ]

lemma length_filterMap_all_some {α β} (f : α → Option β) :
    ∀ l : List α, (∀ x ∈ l, (f x).isSome) → (l.filterMap f).length = l.length := by
  intro l
  induction l with
  | nil => intro h; rfl
  | cons a l ih =>
    intro h
    rw [List.filterMap_cons]
    cases hf : f a with
    | none =>
      have := h a (List.mem_cons_self a l)
      rw [hf] at this
      exact absurd this (by simp)
    | some b =>
      simp only [List.length_cons]
      rw [ih (fun x hx => h x (List.mem_cons_of_mem a hx))]

lemma charStreamFwd_divText_none (s : String) (hne : s ≠ "")
    (hws : ∀ c ∈ s.data, allWhiteSpaceChar c = false)
    (copts : CharacterOptions) (i : Nat) (hi : i ≤ s.length) :
    charStreamFwd (divTextDoc s) copts ⟨[0], i⟩ none =
      (List.range' (i + 1) (s.length - i)).map
        (fun m => getCharacterAt (divTextDoc s) copts ⟨[0], m⟩) := by
  unfold charStreamFwd
  dsimp only
  rw [visChainFwd_divText s hne hws (posCount (divTextDoc s) + 1) i hi
    (by rw [posCount_divText]; omega)]
  rw [List.map_append, List.map_map, List.filter_append]
  have h2 : (([⟨[], 1⟩] : List Pos).map (getCharacterAt (divTextDoc s) copts)).filter
      (fun tp => tp.character.isSome) = [] := by
    simp [getCharacterAt_divText_after s copts]
  rw [h2, List.append_nil]
  rw [List.filter_eq_self.mpr]
  · rfl
  · intro tp htp
    rw [List.mem_map] at htp
    obtain ⟨m, hm, htp⟩ := htp
    rw [List.mem_range'_1] at hm
    obtain ⟨c, _, hgc⟩ := getCharacterAt_divText_mid s hws copts m
      (by omega) (by omega)
    subst htp
    simp only [Function.comp_apply, hgc]
    rfl

lemma charStreamFwd_divText_between (s : String) (hne : s ≠ "")
    (hws : ∀ c ∈ s.data, allWhiteSpaceChar c = false)
    (copts : CharacterOptions) (i j : Nat) (hij : i < j) (hj : j ≤ s.length) :
    charStreamFwd (divTextDoc s) copts ⟨[0], i⟩ (some ⟨[0], j⟩) =
      (List.range' (i + 1) (j - i)).map
        (fun m => getCharacterAt (divTextDoc s) copts ⟨[0], m⟩) := by
  unfold charStreamFwd
  simp only [isCollapsedNode_divText_text s hne hws, Bool.false_eq_true,
    if_false]
  rw [visChainFwd_divText s hne hws (posCount (divTextDoc s) + 1) i (by omega)
    (by rw [posCount_divText]; omega)]
  rw [takeUpThrough_posList (s.length - i) (i + 1) j [⟨[], 1⟩] (by omega)
    (by omega)]
  have hlen : j - (i + 1) + 1 = j - i := by omega
  rw [hlen, List.map_map]
  rw [List.filter_eq_self.mpr]
  · rfl
  · intro tp htp
    rw [List.mem_map] at htp
    obtain ⟨m, hm, htp⟩ := htp
    rw [List.mem_range'_1] at hm
    obtain ⟨c, _, hgc⟩ := getCharacterAt_divText_mid s hws copts m
      (by omega) (by omega)
    subst htp
    simp only [Function.comp_apply, hgc]
    rfl

lemma charStreamFwd_divText_fromRoot (s : String) (hne : s ≠ "")
    (hws : ∀ c ∈ s.data, allWhiteSpaceChar c = false)
    (copts : CharacterOptions) (i : Nat) (hi : i ≤ s.length) :
    charStreamFwd (divTextDoc s) copts ⟨[], 0⟩ (some ⟨[0], i⟩) =
      (List.range' 1 i).map
        (fun m => getCharacterAt (divTextDoc s) copts ⟨[0], m⟩) := by
  unfold charStreamFwd
  simp only [isCollapsedNode_divText_text s hne hws, Bool.false_eq_true,
    if_false]
  rw [visChainFwd_divText_root s hne hws (posCount (divTextDoc s) + 1)
    (by rw [posCount_divText]; omega)]
  by_cases hi0 : i = 0
  · subst hi0
    rw [takeUpThrough]
    rw [if_pos rfl]
    simp [getCharacterAt_divText_zero s copts]
  · rw [takeUpThrough]
    rw [if_neg (by simp [Pos.mk.injEq]; omega)]
    rw [takeUpThrough_posList s.length 1 i [⟨[], 1⟩] (by omega) (by omega)]
    have hlen : i - 1 + 1 = i := by omega
    rw [hlen]
    simp only [List.map_cons, List.map_map, List.filter_cons]
    rw [show ((getCharacterAt (divTextDoc s) copts ⟨[0], 0⟩).character.isSome) =
      false from rfl]
    rw [List.filter_eq_self.mpr]
    · rfl
    · intro tp htp
      rw [List.mem_map] at htp
      obtain ⟨m, hm, htp⟩ := htp
      rw [List.mem_range'_1] at hm
      obtain ⟨c, _, hgc⟩ := getCharacterAt_divText_mid s hws copts m
        (by omega) (by omega)
      subst htp
      simp only [Function.comp_apply, hgc]
      rfl

lemma String_mk_length (l : List Char) : (String.mk l).length = l.length := rfl

lemma rangeText_divText_between (s : String) (hne : s ≠ "")
    (hws : ∀ c ∈ s.data, allWhiteSpaceChar c = false)
    (copts : CharacterOptions) (i j : Nat) (hij : i ≤ j) (hj : j ≤ s.length) :
    (rangeText (divTextDoc s) ⟨⟨[0], i⟩, ⟨[0], j⟩⟩ copts).length = j - i := by
  by_cases he : i = j
  · subst he
    unfold rangeText
    rw [if_pos rfl]
    simp
  · unfold rangeText
    rw [if_neg (by simp [Pos.mk.injEq]; omega)]
    unfold rangeCharacters
    rw [if_neg (by simp)]
    rw [charStreamFwd_divText_between s hne hws copts i j (by omega) hj]
    rw [String_mk_length]
    rw [length_filterMap_all_some]
    · simp
    · intro tp htp
      rw [List.mem_map] at htp
      obtain ⟨m, hm, htp⟩ := htp
      rw [List.mem_range'_1] at hm
      obtain ⟨c, _, hgc⟩ := getCharacterAt_divText_mid s hws copts m
        (by omega) (by omega)
      subst htp
      rw [hgc]
      rfl

lemma rangeText_divText_fromRoot (s : String) (hne : s ≠ "")
    (hws : ∀ c ∈ s.data, allWhiteSpaceChar c = false)
    (copts : CharacterOptions) (i : Nat) (hi : i ≤ s.length) :
    (rangeText (divTextDoc s) ⟨⟨[], 0⟩, ⟨[0], i⟩⟩ copts).length = i := by
  unfold rangeText
  rw [if_neg (by simp [Pos.mk.injEq])]
  unfold rangeCharacters
  rw [if_neg (by simp)]
  rw [charStreamFwd_divText_fromRoot s hne hws copts i hi]
  rw [String_mk_length]
  rw [length_filterMap_all_some]
  · simp
  · intro tp htp
    rw [List.mem_map] at htp
    obtain ⟨m, hm, htp⟩ := htp
    rw [List.mem_range'_1] at hm
    obtain ⟨c, _, hgc⟩ := getCharacterAt_divText_mid s hws copts m
      (by omega) (by omega)
    subst htp
    rw [hgc]
    rfl

lemma take_map_range' {α} (f : Nat → α) :
    ∀ (n a c : Nat), c ≤ n →
      ((List.range' a n).map f).take c = (List.range' a c).map f := by
  intro n
  induction n with
  | zero =>
    intro a c hc
    have : c = 0 := by omega
    subst this
    simp
  | succ n ih =>
    intro a c hc
    cases c with
    | zero => simp
    | succ m =>
      rw [List.range'_succ, List.range'_succ]
      simp only [List.map_cons, List.take_succ_cons]
      rw [ih (a + 1) m (by omega)]

lemma getLast?_cons_of_some {α} (x y : α) (l : List α)
    (h : l.getLast? = some y) : (x :: l).getLast? = some y := by
  cases l with
  | nil => simp at h
  | cons b t => rw [List.getLast?_cons_cons]; exact h

lemma getLast?_map_range' {α} (f : Nat → α) :
    ∀ (n a : Nat), ((List.range' a (n + 1)).map f).getLast? = some (f (a + n)) := by
  intro n
  induction n with
  | zero => intro a; simp [List.range'_one]
  | succ n ih =>
    intro a
    rw [List.range'_succ, List.map_cons]
    have h := ih (a + 1)
    have harith : a + 1 + n = a + (n + 1) := by omega
    rw [harith] at h
    exact getLast?_cons_of_some _ _ _ h

lemma movePositionBy_char_divText (s : String) (hne : s ≠ "")
    (hws : ∀ c ∈ s.data, allWhiteSpaceChar c = false) (i c : Nat)
    (hic : i + c ≤ s.length) :
    movePositionBy (divTextDoc s) ⟨[0], i⟩ "character" (c : Int)
      defaultCharacterOptions defaultWordOptions =
      .ok ⟨⟨[0], i + c⟩, (c : Int)⟩ := by
  by_cases hc0 : c = 0
  · subst hc0
    unfold movePositionBy
    rw [if_pos (by norm_num)]
    simp
  · unfold movePositionBy
    rw [if_neg (by exact_mod_cast hc0)]
    dsimp only
    have hb : ¬((c : Int) < 0) := by omega
    simp only [if_neg hb]
    rw [if_pos trivial]
    rw [charStreamFwd_divText_none s hne hws defaultCharacterOptions i
      (by omega)]
    rw [show ((c : Int)).natAbs = c from Int.natAbs_ofNat c]
    rw [take_map_range' _ (s.length - i) (i + 1) c (by omega)]
    obtain ⟨m, rfl⟩ : ∃ m, c = m + 1 := ⟨c - 1, by omega⟩
    rw [getLast?_map_range']
    obtain ⟨ch, hch, hgc⟩ := getCharacterAt_divText_mid s hws
      defaultCharacterOptions (i + 1 + m) (by omega) (by omega)
    rw [hgc]
    simp only [List.length_map, List.length_range']
    have harith : i + 1 + m = i + (m + 1) := by omega
    rw [harith]
    rfl

lemma rangeMoveStart_eq (d : DomNode) (r : TxRange) (unit : String)
    (count : Int) (copts : CharacterOptions) (wopts : WordOptions) :
    rangeMoveStart d r unit count copts wopts =
      match movePositionBy d r.startPos unit count copts wopts with
      | .error e => .error e
      | .ok mr => .ok (mr.unitsMoved, ⟨mr.position, r.endPos⟩) := rfl

lemma rangeMoveEnd_eq (d : DomNode) (r : TxRange) (unit : String)
    (count : Int) (copts : CharacterOptions) (wopts : WordOptions) :
    rangeMoveEnd d r unit count copts wopts =
      match movePositionBy d r.endPos unit count copts wopts with
      | .error e => .error e
      | .ok mr => .ok (mr.unitsMoved, ⟨r.startPos, mr.position⟩) := rfl

lemma selectCharacters_divText (s : String) (hne : s ≠ "")
    (hws : ∀ c ∈ s.data, allWhiteSpaceChar c = false) (i j : Nat)
    (hij : i ≤ j) (hj : j ≤ s.length) :
    selectCharacters (divTextDoc s) [0] (i : Int) (j : Int)
      defaultCharacterOptions = .ok ⟨⟨[0], i⟩, ⟨[0], j⟩⟩ := by
  have hm1 := movePositionBy_char_divText s hne hws 0 i (by omega)
  rw [show (0 : Nat) + i = i from by omega] at hm1
  have hm2 := movePositionBy_char_divText s hne hws i (j - i) (by omega)
  rw [show i + (j - i) = j from by omega] at hm2
  unfold selectCharacters
  simp only [show nodeAt (divTextDoc s) [0] = some (DomNode.text s) from rfl]
  rw [rangeMoveStart_eq]
  dsimp only
  rw [hm1]
  dsimp only
  rw [rangeMoveEnd_eq]
  dsimp only
  rw [show (j : Int) - (i : Int) = ((j - i : Nat) : Int) from by omega]
  rw [hm2]

lemma toCharacterRange_divText (s : String) (hne : s ≠ "")
    (hws : ∀ c ∈ s.data, allWhiteSpaceChar c = false) (i j : Nat)
    (hij : i ≤ j) (hj : j ≤ s.length) :
    toCharacterRange (divTextDoc s) ⟨⟨[0], i⟩, ⟨[0], j⟩⟩ [0]
      defaultCharacterOptions = .ok ⟨(i : Int), (j : Int)⟩ := by
  unfold toCharacterRange
  dsimp only
  rw [if_neg (by decide)]
  rw [show ([0] : NodePath).dropLast = ([] : NodePath) from rfl]
  rw [show lastIdxOf [0] = 0 from rfl]
  rw [rangeText_divText_fromRoot s hne hws defaultCharacterOptions i
    (by omega)]
  rw [rangeText_divText_between s hne hws defaultCharacterOptions i j hij hj]
  rw [show (i : Int) + ((j - i : Nat) : Int) = (j : Int) from by omega]

lemma chars_divText_run (s : String) (hne : s ≠ "")
    (hws : ∀ c ∈ s.data, allWhiteSpaceChar c = false)
    (copts : CharacterOptions) :
    ∀ (n a : Nat), a + n ≤ s.length →
      ((List.range' (a + 1) n).map
        (fun m => getCharacterAt (divTextDoc s) copts ⟨[0], m⟩)).filterMap
        (fun tp => tp.character) = (s.data.drop a).take n := by
  intro n
  induction n with
  | zero => intro a ha; simp
  | succ n ih =>
    intro a ha
    rw [List.range'_succ, List.map_cons, List.filterMap_cons]
    obtain ⟨c, hc, hgc⟩ := getCharacterAt_divText_mid s hws copts (a + 1)
      (by omega) (by omega)
    rw [hgc]
    dsimp only
    rw [show a + 1 + 1 = (a + 1) + 1 from rfl]
    rw [ih (a + 1) (by omega)]
    have hlt : a < s.data.length := by
      have : s.data.length = s.length := rfl
      omega
    rw [List.drop_eq_get_cons hlt]
    rw [List.take_succ_cons]
    have hget : s.data.get ⟨a, hlt⟩ = c := by
      have h2 := (List.get?_eq_some.mp (by simpa using hc)).2
      exact h2
    rw [hget]

lemma rangeText_divText_all (s : String) (hne : s ≠ "")
    (hws : ∀ c ∈ s.data, allWhiteSpaceChar c = false) :
    rangeText (divTextDoc s) ⟨⟨[0], 0⟩, ⟨[0], s.length⟩⟩
      defaultCharacterOptions = s := by
  have hd := sne_data hne
  have hlen : 1 ≤ s.length := by
    have : s.data.length = s.length := rfl
    cases hx : s.data with
    | nil => exact absurd hx hd
    | cons c rest => rw [hx] at this; simp at this; omega
  unfold rangeText
  rw [if_neg (by simp [Pos.mk.injEq]; omega)]
  unfold rangeCharacters
  rw [if_neg (by simp)]
  rw [charStreamFwd_divText_between s hne hws defaultCharacterOptions 0
    s.length (by omega) (le_refl _)]
  rw [show s.length - 0 = s.length from by omega]
  rw [show (0 : Nat) + 1 = 0 + 1 from rfl]
  rw [chars_divText_run s hne hws defaultCharacterOptions s.length 0
    (by omega)]
  rw [List.drop_zero]
  rw [show s.data.take s.length = s.data from List.take_of_length_le (by
    have : s.data.length = s.length := rfl
    omega)]

/-- The original C1 fails for a collapsed container: in
`<div><span style="display:none">a</span><p>z</p></div>` the hidden span's
plain-text projection is `"\n"` (the following block's leading line break),
and selecting characters 0-1 of it then reading the character range back
yields `{start: 2, stop: 3}`, not `{start: 0, stop: 1}`. -/
theorem claim_C1_counterexample :
    isCollapsedNode docC1bad [0] = true ∧
    rangeText docC1bad ⟨⟨[0], 0⟩, ⟨[0], 1⟩⟩ defaultCharacterOptions = "\n" ∧
    selectCharacters docC1bad [0] 0 1 defaultCharacterOptions =
      .ok ⟨⟨[0], 0⟩, ⟨[1, 0], 0⟩⟩ ∧
    toCharacterRange docC1bad ⟨⟨[0], 0⟩, ⟨[1, 0], 0⟩⟩ [0]
      defaultCharacterOptions = .ok ⟨2, 3⟩ ∧
    (⟨2, 3⟩ : CharacterRange) ≠ ⟨0, 1⟩ :=
  ⟨rfl, rfl, rfl, rfl, by decide⟩

/-- C1 (amended): the `selectCharacters` / `toCharacterRange` round-trip
holds for a visible container.  For a container that is a non-collapsed text
node of non-whitespace characters `s` inside a block element, the plain-text
projection of the container is `s` itself, and for all `0 ≤ i ≤ j ≤ |s|`,
`selectCharacters(container, i, j)` yields a range that `toCharacterRange`
maps back to exactly `{start: i, end: j}`.  For a container inside collapsed
(hidden) content the round-trip fails (see the counterexample). -/
theorem claim_C1 (s : String) (i j : Nat) (hne : s ≠ "")
    (hws : ∀ c ∈ s.data, allWhiteSpaceChar c = false)
    (hij : i ≤ j) (hj : j ≤ s.length) :
    rangeText (divTextDoc s) ⟨⟨[0], 0⟩, ⟨[0], s.length⟩⟩
      defaultCharacterOptions = s ∧
    ∃ r : TxRange,
      selectCharacters (divTextDoc s) [0] (i : Int) (j : Int)
        defaultCharacterOptions = .ok r ∧
      toCharacterRange (divTextDoc s) r [0] defaultCharacterOptions =
        .ok ⟨(i : Int), (j : Int)⟩ :=
  ⟨rangeText_divText_all s hne hws,
   ⟨⟨⟨[0], i⟩, ⟨[0], j⟩⟩,
    selectCharacters_divText s hne hws i j hij hj,
    toCharacterRange_divText s hne hws i j hij hj⟩⟩

theorem claim_C1_witness :
    (("ab" : String) ≠ "" ∧
     (∀ c ∈ ("ab" : String).data, allWhiteSpaceChar c = false) ∧
     1 ≤ 2 ∧ 2 ≤ ("ab" : String).length) ∧
    (rangeText (divTextDoc "ab") ⟨⟨[0], 0⟩, ⟨[0], ("ab" : String).length⟩⟩
      defaultCharacterOptions = "ab" ∧
    ∃ r : TxRange,
      selectCharacters (divTextDoc "ab") [0] ((1 : Nat) : Int)
        ((2 : Nat) : Int) defaultCharacterOptions = .ok r ∧
      toCharacterRange (divTextDoc "ab") r [0] defaultCharacterOptions =
        .ok ⟨((1 : Nat) : Int), ((2 : Nat) : Int)⟩) :=
  ⟨⟨by decide, by decide, by decide, by decide⟩,
   claim_C1 "ab" 1 2 (by decide) (by decide) (by decide) (by decide)⟩

/-- C10: `restoreSelection` is idempotent: a successful call leaves the
saved-selection object with its `restored` flag set, and calling
`restoreSelection` again on the result is a no-op that changes neither the
selection nor the document (markers are removed at most once). -/
theorem claim_C10 (sv : SavedSelection) (st : SelState) (sv' : SavedSelection)
    (st' : SelState) (h : restoreSelection sv st = .ok (sv', st')) :
    sv'.restored = true ∧ restoreSelection sv' st' = .ok (sv', st') := by
  unfold restoreSelection at h
  by_cases hr : sv.restored
  · rw [if_pos hr] at h
    simp only [Except.ok.injEq, Prod.mk.injEq] at h
    obtain ⟨h1, h2⟩ := h
    subst h1
    subst h2
    constructor
    · exact hr
    · unfold restoreSelection
      rw [if_pos hr]
  · rw [if_neg hr] at h
    cases hloop : restoreRangesLoop { st with selRanges := [] } sv.rangeInfos with
    | error e => rw [hloop] at h; exact absurd h (by simp)
    | ok st2 =>
      rw [hloop] at h
      simp only [Except.ok.injEq, Prod.mk.injEq] at h
      obtain ⟨h1, h2⟩ := h
      subst h2
      constructor
      · rw [← h1]
      · unfold restoreSelection
        rw [← h1]
        rfl

theorem claim_C10_witness :
    (⟨[⟨"markA", "markB"⟩], true⟩ : SavedSelection).restored = true ∧
    restoreSelection ⟨[⟨"markA", "markB"⟩], true⟩ ⟨[], [⟨"markA", "markB"⟩]⟩ =
      .ok (⟨[⟨"markA", "markB"⟩], true⟩, ⟨[], [⟨"markA", "markB"⟩]⟩) :=
  claim_C10 ⟨[⟨"markA", "markB"⟩], false⟩ ⟨["markA", "markB"], []⟩ _ _ (by rfl)

/-- C9: whatever range and container node `toCharacterRange` is given, the
character range it returns satisfies `end = start + |text of the range|`,
and since that length is non-negative, `start ≤ end` always holds (`start`
alone may be negative when the range begins before the container). -/
theorem claim_C9 (d : DomNode) (r : TxRange) (containerPath : NodePath)
    (copts : CharacterOptions) (cr : CharacterRange)
    (h : toCharacterRange d r containerPath copts = .ok cr) :
    cr.stop = cr.start + ((rangeText d r copts).length : Int) ∧
    cr.start ≤ cr.stop := by
  unfold toCharacterRange at h
  cases containerPath with
  | nil => simp at h
  | cons i rest =>
    dsimp only at h
    simp only [Except.ok.injEq] at h
    subst h
    refine ⟨rfl, ?_⟩
    simp only
    omega

theorem claim_C9_witness :
    (⟨0, 2⟩ : CharacterRange).stop =
      (⟨0, 2⟩ : CharacterRange).start +
        ((rangeText docDivAb ⟨⟨[0], 0⟩, ⟨[0], 2⟩⟩ defaultCharacterOptions).length : Int) ∧
    (⟨0, 2⟩ : CharacterRange).start ≤ (⟨0, 2⟩ : CharacterRange).stop :=
  claim_C9 docDivAb ⟨⟨[0], 0⟩, ⟨[0], 2⟩⟩ [0] defaultCharacterOptions ⟨0, 2⟩
    (by rfl)

end Rangy
